import Mathlib

/-!
The OS introspection layer of icebox.

A shallow embedding of `src/icebox/linux/os_linux.cpp` (the Linux capability
module) and of `src/icebox/icebox/core/os.cpp` (the core dispatcher).

* `uint64_t` values are natural numbers; additions and subtractions that the
  C++ performs on 64 bits are written `add64` / `sub64`.
* `opt<T>` is `Option T`.  Dereferencing an absent optional or a null module
  pointer is a `Fault`.
* The `for` loop of `OsLinux::proc_list` takes a fuel argument that bounds the
  number of evaluations of its loop condition.
* Callbacks are state-passing functions: the state stands for whatever the C++
  closure captures by reference.
-/

set_option linter.unusedVariables false

/-! ## Machine arithmetic -/

/-- Addition of two `uint64_t` values. -/
def add64 (a b : Nat) : Nat := (a + b) % 2 ^ 64

/-- Subtraction of two `uint64_t` values (wraps around below zero). -/
def sub64 (a b : Nat) : Nat := (a % 2 ^ 64 + (2 ^ 64 - b % 2 ^ 64)) % 2 ^ 64

/-! ## Handles and plain data -/

/-- A directory table base: `dtb_t{val}`. -/
structure dtb_t where
  val : Nat
deriving DecidableEq, Repr

/-- A process handle: `proc_t{id, dtb}`, built in `proc_list` as
`{task_struc, {*pgd}}`. -/
structure proc_t where
  id : Nat
  dtb : dtb_t
deriving DecidableEq, Repr

/-- The walk-control signal returned by enumeration callbacks. -/
inductive walk_e where
  | WALK_STOP
  | WALK_NEXT
deriving DecidableEq, Repr

/-- The struct `os_offsets` of `os_linux.cpp`. -/
structure os_offsets where
  name : Nat
  tasks : Nat
  mm : Nat
  pid : Nat
  pgd : Nat
deriving DecidableEq, Repr

/-- The table `linux_4_15_0_39_offsets`. -/
def linux_4_15_0_39_offsets : os_offsets :=
  { name := 0xa50, tasks := 0x7a8, mm := 0x7f8, pid := 0x8a8, pgd := 0x50 }

/-- The address-space context of a `reader::Reader`: the two fields that
`OsLinux::reader_setup` assigns. -/
structure Reader where
  udtb_ : dtb_t
  kdtb_ : dtb_t
deriving DecidableEq, Repr

/-- A guest byte. -/
abbrev Byte : Type := Fin 256

/-- What can go wrong in the C++ beyond returning a value. -/
inductive Fault where
  | null_deref
  | absent_deref
deriving DecidableEq, Repr

/-- How a call ends: it returns a value, it faults, or the model runs out of
fuel before the loop is over. -/
inductive Exit (α : Type) where
  | returned (a : α)
  | fault (f : Fault)
  | out_of_fuel
deriving DecidableEq, Repr

/-! ## The core as the Linux module sees it -/

/-- The module reached through `core_.os`, of which `os_linux.cpp` only calls
`proc_current()`: the field is the value that call returns. -/
structure OsView where
  proc_current : Option proc_t

/-- The part of `core::Core` used by `os_linux.cpp`.  `os` is the attached
module, `make` is `reader::make(core, proc)` (declared in `reader.hpp`, taken as
a parameter) and `byte` is the guest memory behind a reader: the byte found at
a virtual address under the reader's address-space context, or `none` where
the translation or the physical fetch fails. -/
structure Core where
  os : OsView
  make : proc_t → Reader
  byte : Reader → Nat → Option Byte

namespace Reader

/-- Modelled from the spec: the raw byte-range read of `reader.hpp` (not part
of the sources at hand), `reader.read(dst, src, size)`.  Either the whole range
of `size` bytes starting at `src` is read or the call fails. -/
def read_buf (core : Core) (r : Reader) (src : Nat) : Nat → Option (List Byte)
  | 0 => some []
  | size + 1 =>
    match core.byte r src, read_buf core r (add64 src 1) size with
    | some b, some bs => some (b :: bs)
    | _, _ => none

/-- The little-endian value of a run of bytes. -/
def le_value : List Byte → Nat
  | [] => 0
  | b :: bs => b.val + 256 * le_value bs

/-- Modelled from the spec: `reader.le32(ptr)` of `reader.hpp`, the fixed-width
little-endian integer read derived from the byte-range primitive. -/
def le32 (core : Core) (r : Reader) (ptr : Nat) : Option Nat :=
  (read_buf core r ptr 4).map le_value

/-- Modelled from the spec: `reader.read(ptr)` of `reader.hpp`, the read of a
pointer-sized (64-bit little-endian) value used by list walking. -/
def read (core : Core) (r : Reader) (ptr : Nat) : Option Nat :=
  (read_buf core r ptr 8).map le_value

end Reader

/-! ## The Linux module -/

/-- The members of `struct OsLinux`. -/
structure OsLinux where
  core_ : Core
  members_ : os_offsets
  init_task_addr_ : Nat

namespace OsLinux

/-- The method `OsLinux::setup`: installs the offsets table and the address of
`init_task`, and reports success. -/
def setup (os : OsLinux) : Bool × OsLinux :=
  (true, { os with members_ := linux_4_15_0_39_offsets,
                   init_task_addr_ := 0xffffffff9e612480 })

/-- The method `OsLinux::proc_current`. -/
def proc_current (os : OsLinux) : Option proc_t := none

/-- The method `OsLinux::reader_setup`. -/
def reader_setup (os : OsLinux) (reader : Reader) (proc : proc_t) : Bool × Reader :=
  (true, { reader with udtb_ := proc.dtb, kdtb_ := proc.dtb })

/-- The `for` loop of `OsLinux::proc_list`, entered with the value of `link`
and the state of the callback.  One unit of fuel pays for one evaluation of
the loop condition `link != head`. -/
def proc_list_loop {σ : Type} (os : OsLinux) (reader : Reader) (head : Nat)
    (on_process : σ → proc_t → walk_e × σ) : Nat → Option Nat → σ → Exit Unit × σ
  | 0, _, s => (Exit.out_of_fuel, s)
  | fuel + 1, link, s =>
    if link = some head then (Exit.returned (), s)
    else
      match link with
      | none => (Exit.fault Fault.absent_deref, s)
      | some l =>
        let task_struc := sub64 l os.members_.tasks
        match reader.read os.core_ (add64 task_struc os.members_.pgd) with
        | none => proc_list_loop os reader head on_process fuel (reader.read os.core_ l) s
        | some pgd =>
          match on_process s { id := task_struc, dtb := { val := pgd } } with
          | (walk_e.WALK_STOP, s1) => (Exit.returned (), s1)
          | (walk_e.WALK_NEXT, s1) =>
            proc_list_loop os reader head on_process fuel (reader.read os.core_ l) s1

/-- The method `OsLinux::proc_list`. -/
def proc_list {σ : Type} (os : OsLinux) (fuel : Nat)
    (on_process : σ → proc_t → walk_e × σ) (s : σ) : Exit Bool × σ :=
  match os.core_.os.proc_current with
  | none => (Exit.returned false, s)
  | some proc =>
    let head := add64 os.init_task_addr_ os.members_.tasks
    let reader := os.core_.make proc
    match proc_list_loop os reader head on_process fuel (reader.read os.core_ head) s with
    | (Exit.returned _, s1) => (Exit.returned true, s1)
    | (Exit.fault f, s1) => (Exit.fault f, s1)
    | (Exit.out_of_fuel, s1) => (Exit.out_of_fuel, s1)

/-- The method `OsLinux::proc_name`.  A `std::string` is the list of its
bytes; constructing it from the buffer stops at the first NUL. -/
def proc_name (os : OsLinux) (proc : proc_t) : Option (List Byte) :=
  let reader := os.core_.make proc
  match reader.read_buf os.core_ (add64 proc.id os.members_.name) (14 + 1) with
  | none => none
  | some buffer =>
    let buffer := buffer.set (14 + 1 - 1) 0
    let name := buffer.takeWhile (fun c => decide (c ≠ 0))
    if name.length < 14 + 1 - 1 then some name else some name

/-- The method `OsLinux::proc_id`. -/
def proc_id (os : OsLinux) (proc : proc_t) : Nat :=
  let reader := os.core_.make proc
  match reader.le32 os.core_ (add64 proc.id os.members_.pid) with
  | none => 0
  | some pid => 0x0000000000000000 ||| pid

/-- The callback of `OsLinux::proc_find(std::string_view name)`; its state is
the captured `found`. -/
def proc_find_name_fn (os : OsLinux) (name : List Byte) (found : Option proc_t)
    (proc : proc_t) : walk_e × Option proc_t :=
  let got := os.proc_name proc
  if got ≠ some name then (walk_e.WALK_NEXT, found) else (walk_e.WALK_STOP, some proc)

/-- The callback of `OsLinux::proc_find(uint64_t pid)`; its state is the
captured `found`. -/
def proc_find_pid_fn (os : OsLinux) (pid : Nat) (found : Option proc_t)
    (proc : proc_t) : walk_e × Option proc_t :=
  let got := os.proc_id proc
  if got ≠ pid then (walk_e.WALK_NEXT, found) else (walk_e.WALK_STOP, some proc)

/-- The overload `OsLinux::proc_find(std::string_view name)`: the result of
`proc_list` is dropped and `found` is returned. -/
def proc_find_name (os : OsLinux) (fuel : Nat) (name : List Byte) : Exit (Option proc_t) :=
  match os.proc_list fuel (os.proc_find_name_fn name) none with
  | (Exit.returned _, found) => Exit.returned found
  | (Exit.fault f, _) => Exit.fault f
  | (Exit.out_of_fuel, _) => Exit.out_of_fuel

/-- The overload `OsLinux::proc_find(uint64_t pid)`. -/
def proc_find_pid (os : OsLinux) (fuel : Nat) (pid : Nat) : Exit (Option proc_t) :=
  match os.proc_list fuel (os.proc_find_pid_fn pid) none with
  | (Exit.returned _, found) => Exit.returned found
  | (Exit.fault f, _) => Exit.fault f
  | (Exit.out_of_fuel, _) => Exit.out_of_fuel

end OsLinux

/-! ## Observing a traversal -/

namespace OsLinux

/-- A callback that never stops and writes down every handle it is given. -/
def note (calls : List proc_t) (proc : proc_t) : walk_e × List proc_t :=
  (walk_e.WALK_NEXT, calls ++ [proc])

/-- Any callback, made to write down every handle it is given next to its own
state. -/
def recording {σ : Type} (f : σ → proc_t → walk_e × σ) (st : σ × List proc_t)
    (proc : proc_t) : walk_e × (σ × List proc_t) :=
  ((f st.1 proc).1, ((f st.1 proc).2, st.2 ++ [proc]))

/-- The nodes visited by the `proc_list` traversal within `fuel` steps: the
handles that `proc_list` gives to a callback that never stops. -/
def visited (os : OsLinux) (fuel : Nat) : List proc_t :=
  (os.proc_list fuel note []).2

/-- The handle that `proc_list` builds for the node reached by the link `l`, if
the page-table root of that node can be read. -/
def node_at (os : OsLinux) (reader : Reader) (l : Nat) : Option proc_t :=
  (reader.read os.core_ (add64 (sub64 l os.members_.tasks) os.members_.pgd)).map
    (fun pgd => { id := sub64 l os.members_.tasks, dtb := { val := pgd } })

/-- The next-pointers from the address `cur` run through the links `links`, none
of which is `head`, and then come back to `head`. -/
def is_chain (os : OsLinux) (reader : Reader) (head : Nat) : Nat → List Nat → Prop
  | cur, [] => reader.read os.core_ cur = some head
  | cur, l :: ls => reader.read os.core_ cur = some l ∧ l ≠ head ∧ is_chain os reader head l ls

/-- The process list of the guest is a well-formed circular list: starting at
the sentinel `init_task_addr_ + tasks`, the next-pointers read through the
reader of `proc` run through `links` and return to the sentinel. -/
def well_formed (os : OsLinux) (proc : proc_t) (links : List Nat) : Prop :=
  is_chain os (os.core_.make proc) (add64 os.init_task_addr_ os.members_.tasks)
    (add64 os.init_task_addr_ os.members_.tasks) links

/-- What a callback does along a list of handles: whether it asked to stop, and
its state at that point (or at the end of the list). -/
def feed {σ : Type} (f : σ → proc_t → walk_e × σ) : List proc_t → σ → Bool × σ
  | [], s => (false, s)
  | p :: ps, s =>
    match f s p with
    | (walk_e.WALK_STOP, s1) => (true, s1)
    | (walk_e.WALK_NEXT, s1) => feed f ps s1

/-- The number of handles of a list a callback is given up to and including
the one at which it first asks to stop, if it does. -/
def first_stop {σ : Type} (f : σ → proc_t → walk_e × σ) : List proc_t → σ → Option Nat
  | [], _ => none
  | p :: ps, s =>
    match f s p with
    | (walk_e.WALK_STOP, _) => some 1
    | (walk_e.WALK_NEXT, s1) => (first_stop f ps s1).map (fun k => k + 1)

end OsLinux

/-! ## The core dispatcher (`os.cpp`) -/

/-- The callback and symbol types that `os.hpp` declares, taken as parameters. -/
structure Callbacks where
  on_proc_event_fn : Type
  on_thread_event_fn : Type
  on_mod_event_fn : Type
  on_drv_event_fn : Type
  Symbols : Type

/-- The calling-convention value `arg_t{val}`. -/
structure arg_t where
  val : Nat
deriving DecidableEq, Repr

namespace os

/-- The breakpoint id `os::bpid_t`. -/
abbrev bpid_t : Type := Nat

/-- The virtual methods of `os::IModule` that `os.cpp` calls.  A method takes
the state of the module object and returns its result with the new state. -/
structure IModule (τ : Callbacks) (σ : Type) where
  is_kernel_address : σ → Nat → Bool × σ
  can_inject_fault : σ → Nat → Bool × σ
  reader_setup : σ → Reader → Option proc_t → (Bool × Reader) × σ
  kernel_symbols : σ → τ.Symbols × σ
  listen_proc_create : σ → τ.on_proc_event_fn → Option bpid_t × σ
  listen_proc_delete : σ → τ.on_proc_event_fn → Option bpid_t × σ
  listen_thread_create : σ → τ.on_thread_event_fn → Option bpid_t × σ
  listen_thread_delete : σ → τ.on_thread_event_fn → Option bpid_t × σ
  listen_mod_create : σ → τ.on_mod_event_fn → Option bpid_t × σ
  listen_drv_create : σ → τ.on_drv_event_fn → Option bpid_t × σ
  unlisten : σ → bpid_t → Nat × σ
  read_stack : σ → Nat → Option arg_t × σ
  read_arg : σ → Nat → Option arg_t × σ
  write_arg : σ → Nat → arg_t → Bool × σ
  debug_print : σ → Unit × σ

/-- A module object: its methods and its state. -/
structure Module (τ : Callbacks) (σ : Type) where
  vtable : IModule τ σ
  self : σ

/-- The private view of `core::Core` that `os.cpp` has: the owning pointer
`os_`, null when no module is attached. -/
structure CorePrivate (τ : Callbacks) (σ : Type) where
  os_ : Option (Module τ σ)

variable {τ : Callbacks} {σ : Type}

/-- The expression `core.os_->method(args)`: a null `os_` faults, otherwise the
method runs on the module object. -/
def arrow {α : Type} (core : CorePrivate τ σ) (method : IModule τ σ → σ → α × σ) :
    Except Fault (α × CorePrivate τ σ) :=
  match core.os_ with
  | none => Except.error Fault.null_deref
  | some m =>
    Except.ok ((method m.vtable m.self).1,
      { os_ := some { vtable := m.vtable, self := (method m.vtable m.self).2 } })

/-- The function `os::is_kernel_address`. -/
def is_kernel_address (core : CorePrivate τ σ) (ptr : Nat) :
    Except Fault (Bool × CorePrivate τ σ) :=
  arrow core (fun m s => m.is_kernel_address s ptr)

/-- The function `os::can_inject_fault`. -/
def can_inject_fault (core : CorePrivate τ σ) (ptr : Nat) :
    Except Fault (Bool × CorePrivate τ σ) :=
  if core.os_.isNone then Except.ok (false, core)
  else arrow core (fun m s => m.can_inject_fault s ptr)

/-- The function `os::reader_setup`; the reader is passed by reference, so it
is returned next to the result. -/
def reader_setup (core : CorePrivate τ σ) (reader : Reader) (proc : Option proc_t) :
    Except Fault ((Bool × Reader) × CorePrivate τ σ) :=
  if core.os_.isNone then Except.ok ((true, reader), core)
  else arrow core (fun m s => m.reader_setup s reader proc)

/-- The function `os::kernel_symbols`. -/
def kernel_symbols (core : CorePrivate τ σ) : Except Fault (τ.Symbols × CorePrivate τ σ) :=
  arrow core (fun m s => m.kernel_symbols s)

/-- The function `os::listen_proc_create`. -/
def listen_proc_create (core : CorePrivate τ σ) (on_proc_event : τ.on_proc_event_fn) :
    Except Fault (Option bpid_t × CorePrivate τ σ) :=
  arrow core (fun m s => m.listen_proc_create s on_proc_event)

/-- The function `os::listen_proc_delete`. -/
def listen_proc_delete (core : CorePrivate τ σ) (on_proc_event : τ.on_proc_event_fn) :
    Except Fault (Option bpid_t × CorePrivate τ σ) :=
  arrow core (fun m s => m.listen_proc_delete s on_proc_event)

/-- The function `os::listen_thread_create`. -/
def listen_thread_create (core : CorePrivate τ σ) (on_thread_event : τ.on_thread_event_fn) :
    Except Fault (Option bpid_t × CorePrivate τ σ) :=
  arrow core (fun m s => m.listen_thread_create s on_thread_event)

/-- The function `os::listen_thread_delete`. -/
def listen_thread_delete (core : CorePrivate τ σ) (on_thread_event : τ.on_thread_event_fn) :
    Except Fault (Option bpid_t × CorePrivate τ σ) :=
  arrow core (fun m s => m.listen_thread_delete s on_thread_event)

/-- The function `os::listen_mod_create`. -/
def listen_mod_create (core : CorePrivate τ σ) (on_load : τ.on_mod_event_fn) :
    Except Fault (Option bpid_t × CorePrivate τ σ) :=
  arrow core (fun m s => m.listen_mod_create s on_load)

/-- The function `os::listen_drv_create`. -/
def listen_drv_create (core : CorePrivate τ σ) (on_load : τ.on_drv_event_fn) :
    Except Fault (Option bpid_t × CorePrivate τ σ) :=
  arrow core (fun m s => m.listen_drv_create s on_load)

/-- The function `os::unlisten`. -/
def unlisten (core : CorePrivate τ σ) (bpid : bpid_t) :
    Except Fault (Nat × CorePrivate τ σ) :=
  arrow core (fun m s => m.unlisten s bpid)

/-- The function `os::read_stack`. -/
def read_stack (core : CorePrivate τ σ) (index : Nat) :
    Except Fault (Option arg_t × CorePrivate τ σ) :=
  arrow core (fun m s => m.read_stack s index)

/-- The function `os::read_arg`. -/
def read_arg (core : CorePrivate τ σ) (index : Nat) :
    Except Fault (Option arg_t × CorePrivate τ σ) :=
  arrow core (fun m s => m.read_arg s index)

/-- The function `os::write_arg`. -/
def write_arg (core : CorePrivate τ σ) (index : Nat) (arg : arg_t) :
    Except Fault (Bool × CorePrivate τ σ) :=
  arrow core (fun m s => m.write_arg s index arg)

/-- The function `os::debug_print`. -/
def debug_print (core : CorePrivate τ σ) : Except Fault (Unit × CorePrivate τ σ) :=
  arrow core (fun m s => m.debug_print s)

end os

/-! ## Construction, and the traversal seen from the links -/

namespace OsLinux

/-- The constructor `OsLinux::OsLinux(core)`: it initialises `core_` only, so
the two other members hold whatever the storage held, given here as `junk`. -/
def ctor (core : Core) (junk : os_offsets × Nat) : OsLinux :=
  { core_ := core, members_ := junk.1, init_task_addr_ := junk.2 }

/-- The Linux module as the module reached through `core_.os`: its
`proc_current()` is `OsLinux::proc_current`. -/
def as_view (os : OsLinux) : OsView :=
  { proc_current := os.proc_current }

/-- The link in hand after `i` further reads, starting from the link `start`:
each next link is the value read at the address of the link before. -/
def link_from (os : OsLinux) (reader : Reader) : Option Nat → Nat → Option Nat
  | start, 0 => start
  | start, i + 1 => link_from os reader (start.bind (fun l => reader.read os.core_ l)) i

/-- The links whose loop body `proc_list` runs within `fuel` loop tests when the
callback never stops, starting from the link `link`. -/
def followed (os : OsLinux) (reader : Reader) (head : Nat) : Nat → Option Nat → List Nat
  | 0, _ => []
  | fuel + 1, link =>
    if link = some head then []
    else
      match link with
      | none => []
      | some l => l :: followed os reader head fuel (reader.read os.core_ l)

end OsLinux

namespace os

/-- The function `os::make_linux`.  `std::make_unique` yields a non-null
pointer to an object built by the constructor. -/
def make_linux (core : Core) (junk : os_offsets × Nat) : Option OsLinux :=
  match some (OsLinux.ctor core junk) with
  | none => none
  | some oslinux =>
    match oslinux.setup with
    | (false, _) => none
    | (true, oslinux1) => some oslinux1

end os

/-! ## Synthetic guests -/

namespace Synthetic

/-- A run of `width` guest bytes at `addr` holding `value` in little-endian
order. -/
structure Cell where
  addr : Nat
  width : Nat
  value : Nat

/-- The byte of a cell at the address `a`. -/
def Cell.byte_at (c : Cell) (a : Nat) : Byte :=
  ⟨(c.value / 256 ^ (a - c.addr)) % 256, Nat.mod_lt _ (by decide)⟩

/-- A guest memory in which exactly the bytes of the given cells are mapped. -/
def byte_of (cells : List Cell) (a : Nat) : Option Byte :=
  (cells.find? (fun c => decide (c.addr ≤ a) && decide (a < c.addr + c.width))).map
    (fun c => c.byte_at a)

/-- A core over a synthetic guest.  Its readers take both roots from the
process; the memory is the same under every reader. -/
def core_of (current : Option proc_t) (cells : List Cell) : Core :=
  { os := { proc_current := current },
    make := fun proc => { udtb_ := proc.dtb, kdtb_ := proc.dtb },
    byte := fun _ a => byte_of cells a }

/-- Offsets of a small synthetic task structure. -/
def offsets : os_offsets :=
  { name := 0x40, tasks := 0x10, mm := 0x18, pid := 0x30, pgd := 0x20 }

/-- A Linux module over a synthetic guest whose `init_task` is at `0x1000`. -/
def linux_of (current : Option proc_t) (cells : List Cell) : OsLinux :=
  { core_ := core_of current cells, members_ := offsets, init_task_addr_ := 0x1000 }

/-- The process the core reports as current in the synthetic guests. -/
def current : proc_t := { id := 0x1000, dtb := { val := 0x5000 } }

/-- One task at `0x2000` linked after the sentinel; its page-table root is not
mapped. -/
def one_unreadable : OsLinux :=
  linux_of (some current)
    [⟨0x1010, 8, 0x2010⟩, ⟨0x2010, 8, 0x1010⟩]

/-- One task at `0x2000` with a readable page-table root, and a core whose
module reports no current process. -/
def one_no_current : OsLinux :=
  linux_of none
    [⟨0x1010, 8, 0x2010⟩, ⟨0x2010, 8, 0x1010⟩, ⟨0x2020, 8, 0x6000⟩]

/-- Two tasks at `0x2000` and `0x3000` linked after the sentinel, both with
readable page-table roots and pids 5 and 6. -/
def two_tasks : OsLinux :=
  linux_of (some current)
    [⟨0x1010, 8, 0x2010⟩, ⟨0x2010, 8, 0x3010⟩, ⟨0x3010, 8, 0x1010⟩,
     ⟨0x2020, 8, 0x6000⟩, ⟨0x3020, 8, 0x7000⟩,
     ⟨0x2030, 4, 5⟩, ⟨0x3030, 4, 6⟩]

/-- The three-entry process list A -> B -> C -> A whose entry A, at `0x1000`, is
`init_task` itself; B is at `0x2000` and C at `0x3000`.  Every page-table root
is readable and the pids are 7, 8 and 9. -/
def ring_of_three : OsLinux :=
  linux_of (some current)
    [⟨0x1010, 8, 0x2010⟩, ⟨0x2010, 8, 0x3010⟩, ⟨0x3010, 8, 0x1010⟩,
     ⟨0x1020, 8, 0x5000⟩, ⟨0x2020, 8, 0x6000⟩, ⟨0x3020, 8, 0x7000⟩,
     ⟨0x1030, 4, 7⟩, ⟨0x2030, 4, 8⟩, ⟨0x3030, 4, 9⟩]

/-- Three tasks A, B, C at `0x2000`, `0x3000`, `0x4000` linked after the
sentinel of `init_task` and back to it; every page-table root is readable and
the pids are 7, 8 and 9. -/
def three_after_sentinel : OsLinux :=
  linux_of (some current)
    [⟨0x1010, 8, 0x2010⟩, ⟨0x2010, 8, 0x3010⟩, ⟨0x3010, 8, 0x4010⟩, ⟨0x4010, 8, 0x1010⟩,
     ⟨0x2020, 8, 0x6000⟩, ⟨0x3020, 8, 0x7000⟩, ⟨0x4020, 8, 0x8000⟩,
     ⟨0x2030, 4, 7⟩, ⟨0x3030, 4, 8⟩, ⟨0x4030, 4, 9⟩]

/-- A task at `0x2000` whose 15-byte name field holds fifteen bytes `0x41` and
no NUL, and whose pid field holds `0x01020304`; a task at `0x4000` whose pid
field holds 0.  Nothing is mapped at `0x3000`. -/
def named_task : OsLinux :=
  linux_of (some current)
    [⟨0x2040, 15, 0x414141414141414141414141414141⟩, ⟨0x2030, 4, 0x01020304⟩,
     ⟨0x4030, 4, 0⟩]

/-- The handle of the task at `0x2000`. -/
def task_a : proc_t := { id := 0x2000, dtb := { val := 0x6000 } }

/-- The handle of the task at `0x3000`. -/
def task_b : proc_t := { id := 0x3000, dtb := { val := 0x7000 } }

/-- The handle of the task at `0x4000`. -/
def task_c : proc_t := { id := 0x4000, dtb := { val := 0x8000 } }

/-- Callback and symbol types with nothing in them. -/
def plain : Callbacks :=
  { on_proc_event_fn := Unit, on_thread_event_fn := Unit, on_mod_event_fn := Unit,
    on_drv_event_fn := Unit, Symbols := Unit }

/-- A core with no module attached. -/
def detached : os.CorePrivate plain Unit := { os_ := none }

/-- Two tasks at `0x2000` and `0x3000` linked after the sentinel; the
page-table root of the first is not mapped, that of the second is. -/
def mixed_tasks : OsLinux :=
  linux_of (some current)
    [⟨0x1010, 8, 0x2010⟩, ⟨0x2010, 8, 0x3010⟩, ⟨0x3010, 8, 0x1010⟩, ⟨0x3020, 8, 0x7000⟩]

/-- The same guest as `mixed_tasks` under a module that reports no current
process. -/
def mixed_no_current : OsLinux :=
  linux_of none
    [⟨0x1010, 8, 0x2010⟩, ⟨0x2010, 8, 0x3010⟩, ⟨0x3010, 8, 0x1010⟩, ⟨0x3020, 8, 0x7000⟩]

/-- A guest in which the next-pointer of the sentinel, at `0x1010`, is not
mapped. -/
def root_unreadable : OsLinux :=
  linux_of (some current) [⟨0x2010, 8, 0x1010⟩, ⟨0x2020, 8, 0x6000⟩]

/-- A guest in which nothing is mapped: no kernel at all. -/
def blank : Core := core_of none []

/-- A task at `0x2000` whose name field holds `41 42 00 43` followed by eleven
bytes `44`. -/
def nul_name : OsLinux :=
  linux_of (some current) [⟨0x2040, 15, 0x444444444444444444444443004241⟩]

/-- Two tasks at `0x2000` and `0x3000` linked after the sentinel, both with
readable page-table roots; the pid of the first is 5, the pid field of the
second is not mapped. -/
def second_pid_unreadable : OsLinux :=
  linux_of (some current)
    [⟨0x1010, 8, 0x2010⟩, ⟨0x2010, 8, 0x3010⟩, ⟨0x3010, 8, 0x1010⟩,
     ⟨0x2020, 8, 0x6000⟩, ⟨0x3020, 8, 0x7000⟩,
     ⟨0x2030, 4, 5⟩]

/-- A module whose state counts the calls it receives and whose results are
computed from its arguments and that count. -/
def counting : os.IModule plain Nat :=
  { is_kernel_address := fun n ptr => (decide (2 ^ 63 ≤ ptr), n + 1),
    can_inject_fault := fun n ptr => (decide (ptr < 2 ^ 63), n + 1),
    reader_setup := fun n reader proc =>
      ((proc.isSome, { udtb_ := (proc.getD task_a).dtb, kdtb_ := reader.kdtb_ }), n + 1),
    kernel_symbols := fun n => ((), n + 1),
    listen_proc_create := fun n _ => (some (10 + n), n + 1),
    listen_proc_delete := fun n _ => (some (20 + n), n + 1),
    listen_thread_create := fun n _ => (some (30 + n), n + 1),
    listen_thread_delete := fun n _ => (some (40 + n), n + 1),
    listen_mod_create := fun n _ => (some (50 + n), n + 1),
    listen_drv_create := fun n _ => (some (60 + n), n + 1),
    unlisten := fun n bpid => (if bpid < n then 1 else 0, n + 1),
    read_stack := fun n index => (some { val := index + n }, n + 1),
    read_arg := fun n index => (some { val := 2 * index + n }, n + 1),
    write_arg := fun n index arg => (decide (index < 8 ∧ arg.val = n), n + 1),
    debug_print := fun n => ((), n + 1) }

/-- A core with the counting module attached, after `n` calls. -/
def attached (n : Nat) : os.CorePrivate plain Nat :=
  { os_ := some { vtable := counting, self := n } }

/-- A callback that asks to stop at the first handle it is given. -/
def stop_at_once (s : Unit) (proc : proc_t) : walk_e × Unit := (walk_e.WALK_STOP, s)

/-- A callback that always continues and counts its invocations. -/
def count_on (n : Nat) (proc : proc_t) : walk_e × Nat := (walk_e.WALK_NEXT, n + 1)

end Synthetic

/-! ## Lemmas on the traversal -/

namespace OsLinux

variable {σ : Type}

theorem loop_zero (os : OsLinux) (r : Reader) (head : Nat) (f : σ → proc_t → walk_e × σ)
    (link : Option Nat) (s : σ) :
    proc_list_loop os r head f 0 link s = (Exit.out_of_fuel, s) := rfl

theorem loop_head (os : OsLinux) (r : Reader) (head : Nat) (f : σ → proc_t → walk_e × σ)
    (fuel : Nat) (s : σ) :
    proc_list_loop os r head f (fuel + 1) (some head) s = (Exit.returned (), s) := by
  simp [proc_list_loop]

theorem loop_absent (os : OsLinux) (r : Reader) (head : Nat) (f : σ → proc_t → walk_e × σ)
    (fuel : Nat) (s : σ) :
    proc_list_loop os r head f (fuel + 1) none s = (Exit.fault Fault.absent_deref, s) := by
  simp [proc_list_loop]

theorem loop_skip (os : OsLinux) (r : Reader) (head : Nat) (f : σ → proc_t → walk_e × σ)
    (fuel l : Nat) (s : σ) (hl : l ≠ head) (hn : os.node_at r l = none) :
    proc_list_loop os r head f (fuel + 1) (some l) s
      = proc_list_loop os r head f fuel (r.read os.core_ l) s := by
  have hp : r.read os.core_ (add64 (sub64 l os.members_.tasks) os.members_.pgd) = none := by
    simpa [node_at] using hn
  simp [proc_list_loop, hl, hp]

theorem loop_stop (os : OsLinux) (r : Reader) (head : Nat) (f : σ → proc_t → walk_e × σ)
    (fuel l : Nat) (s s1 : σ) (p : proc_t) (hl : l ≠ head) (hn : os.node_at r l = some p)
    (hf : f s p = (walk_e.WALK_STOP, s1)) :
    proc_list_loop os r head f (fuel + 1) (some l) s = (Exit.returned (), s1) := by
  simp only [node_at, Option.map_eq_some'] at hn
  obtain ⟨pgd, hp, rfl⟩ := hn
  simp [proc_list_loop, hl, hp, hf]

theorem loop_next (os : OsLinux) (r : Reader) (head : Nat) (f : σ → proc_t → walk_e × σ)
    (fuel l : Nat) (s s1 : σ) (p : proc_t) (hl : l ≠ head) (hn : os.node_at r l = some p)
    (hf : f s p = (walk_e.WALK_NEXT, s1)) :
    proc_list_loop os r head f (fuel + 1) (some l) s
      = proc_list_loop os r head f fuel (r.read os.core_ l) s1 := by
  simp only [node_at, Option.map_eq_some'] at hn
  obtain ⟨pgd, hp, rfl⟩ := hn
  simp [proc_list_loop, hl, hp, hf]

/-- Every step of the loop is one of the five cases above. -/
theorem loop_cases (head : Nat) (link : Option Nat) :
    link = some head ∨ link = none ∨ ∃ l, link = some l ∧ l ≠ head := by
  cases link with
  | none => exact Or.inr (Or.inl rfl)
  | some l =>
    by_cases h : l = head
    · exact Or.inl (by rw [h])
    · exact Or.inr (Or.inr ⟨l, rfl, h⟩)

theorem walk_cases (w : walk_e × σ) :
    (∃ s1, w = (walk_e.WALK_STOP, s1)) ∨ (∃ s1, w = (walk_e.WALK_NEXT, s1)) := by
  obtain ⟨e, s1⟩ := w
  cases e
  · exact Or.inl ⟨s1, rfl⟩
  · exact Or.inr ⟨s1, rfl⟩

/-- The never-stopping recorder appends its trace to what was already
written. -/
theorem loop_note_acc (os : OsLinux) (r : Reader) (head : Nat) :
    ∀ (fuel : Nat) (link : Option Nat) (acc : List proc_t),
      proc_list_loop os r head note fuel link acc
        = ((proc_list_loop os r head note fuel link []).1,
           acc ++ (proc_list_loop os r head note fuel link []).2) := by
  intro fuel
  induction fuel with
  | zero => intro link acc; simp [loop_zero]
  | succ n ih =>
    intro link acc
    rcases loop_cases head link with h | h | ⟨l, h, hl⟩
    · subst h; simp [loop_head]
    · subst h; simp [loop_absent]
    · subst h
      cases hn : os.node_at r l with
      | none => rw [loop_skip _ _ _ _ _ _ _ hl hn, loop_skip _ _ _ _ _ _ _ hl hn]; exact ih _ _
      | some p =>
        rw [loop_next _ _ _ _ _ _ acc (acc ++ [p]) p hl hn rfl,
          loop_next _ _ _ _ _ _ [] ([] ++ [p]) p hl hn rfl, ih _ (acc ++ [p]), ih _ ([] ++ [p])]
        simp

/-- The loop under any callback is the loop under the recorder followed by the
callback run along the recorded trace. -/
theorem loop_feed (os : OsLinux) (r : Reader) (head : Nat) (f : σ → proc_t → walk_e × σ) :
    ∀ (fuel : Nat) (link : Option Nat) (s : σ),
      proc_list_loop os r head f fuel link s
        = (if (feed f (proc_list_loop os r head note fuel link []).2 s).1 then Exit.returned ()
           else (proc_list_loop os r head note fuel link []).1,
           (feed f (proc_list_loop os r head note fuel link []).2 s).2) := by
  intro fuel
  induction fuel with
  | zero => intro link s; simp [loop_zero, feed]
  | succ n ih =>
    intro link s
    rcases loop_cases head link with h | h | ⟨l, h, hl⟩
    · subst h; simp [loop_head, feed]
    · subst h; simp [loop_absent, feed]
    · subst h
      cases hn : os.node_at r l with
      | none => rw [loop_skip _ _ _ _ _ _ _ hl hn, loop_skip _ _ _ _ _ _ _ hl hn]; exact ih _ _
      | some p =>
        rw [loop_next _ _ _ note _ _ [] ([] ++ [p]) p hl hn rfl, loop_note_acc]
        rcases walk_cases (f s p) with ⟨s1, hf⟩ | ⟨s1, hf⟩
        · rw [loop_stop _ _ _ _ _ _ s s1 p hl hn hf]
          simp [feed, hf]
        · rw [loop_next _ _ _ _ _ _ s s1 p hl hn hf, ih]
          simp [feed, hf]

/-- On a chain of links back to the sentinel, the recorder returns with the
handles of the links whose page-table root is readable, in order. -/
theorem loop_chain (os : OsLinux) (r : Reader) (head : Nat) :
    ∀ (links : List Nat) (cur fuel : Nat), is_chain os r head cur links → links.length < fuel →
      proc_list_loop os r head note fuel (r.read os.core_ cur) []
        = (Exit.returned (), links.filterMap (os.node_at r)) := by
  intro links
  induction links with
  | nil =>
    intro cur fuel hc hfuel
    obtain ⟨n, rfl⟩ : ∃ n, fuel = n + 1 := ⟨fuel - 1, by simp at hfuel; omega⟩
    simp only [is_chain] at hc
    rw [hc, loop_head]
    rfl
  | cons l ls ih =>
    intro cur fuel hc hfuel
    obtain ⟨n, rfl⟩ : ∃ n, fuel = n + 1 := ⟨fuel - 1, by omega⟩
    simp only [is_chain] at hc
    obtain ⟨hcur, hl, hrest⟩ := hc
    have hn : ls.length < n := by simpa using hfuel
    rw [hcur]
    cases hnode : os.node_at r l with
    | none =>
      rw [loop_skip _ _ _ _ _ _ _ hl hnode, ih l n hrest hn]
      simp [List.filterMap_cons, hnode]
    | some p =>
      rw [loop_next _ _ _ note _ _ [] ([] ++ [p]) p hl hnode rfl, loop_note_acc, ih l n hrest hn]
      simp [List.filterMap_cons, hnode]

/-- A callback that always continues is never seen to stop. -/
theorem feed_never_stops (f : σ → proc_t → walk_e × σ)
    (hf : ∀ s p, (f s p).1 = walk_e.WALK_NEXT) :
    ∀ (tr : List proc_t) (s : σ), (feed f tr s).1 = false ∧ first_stop f tr s = none := by
  intro tr
  induction tr with
  | nil => intro s; simp [feed, first_stop]
  | cons p ps ih =>
    intro s
    rcases walk_cases (f s p) with ⟨s1, h⟩ | ⟨s1, h⟩
    · have := hf s p
      rw [h] at this
      cases this
    · simp [feed, first_stop, h, ih s1]

/-- The recording callback stops where the callback it wraps stops, leaves it
in the same state, and has then written down the handles up to that point. -/
theorem feed_recording (f : σ → proc_t → walk_e × σ) :
    ∀ (tr : List proc_t) (s : σ) (c : List proc_t),
      feed (recording f) tr (s, c)
        = ((feed f tr s).1, ((feed f tr s).2,
            c ++ tr.take ((first_stop f tr s).getD tr.length))) := by
  intro tr
  induction tr with
  | nil => intro s c; simp [feed, first_stop]
  | cons p ps ih =>
    intro s c
    rcases walk_cases (f s p) with ⟨s1, h⟩ | ⟨s1, h⟩
    · simp [feed, first_stop, recording, h]
    · have hr : recording f (s, c) p = (walk_e.WALK_NEXT, (s1, c ++ [p])) := by
        simp [recording, h]
      simp only [feed, hr, h, ih s1 (c ++ [p]), first_stop]
      cases first_stop f ps s1 <;> simp

/-- A callback that stops at the `k`-th handle of a list has been given `k`
handles, `k` being at least one and at most the length of the list, and is
left in the state it has after the first `k` handles. -/
theorem first_stop_spec (f : σ → proc_t → walk_e × σ) :
    ∀ (tr : List proc_t) (s : σ) (k : Nat), first_stop f tr s = some k →
      1 ≤ k ∧ k ≤ tr.length ∧ (feed f tr s).1 = true ∧ feed f (tr.take k) s = feed f tr s := by
  intro tr
  induction tr with
  | nil => intro s k h; simp [first_stop] at h
  | cons p ps ih =>
    intro s k h
    rcases walk_cases (f s p) with ⟨s1, hf⟩ | ⟨s1, hf⟩
    · simp only [first_stop, hf, Option.some.injEq] at h
      subst h
      simp [feed, hf]
    · simp only [first_stop, hf, Option.map_eq_some'] at h
      obtain ⟨k1, hk1, rfl⟩ := h
      obtain ⟨h1, h2, h3, h4⟩ := ih s1 k1 hk1
      refine ⟨by omega, by simpa using h2, ?_, ?_⟩
      · simpa [feed, hf] using h3
      · simpa [feed, hf] using h4

/-- The method `proc_list` under any callback is `proc_list` under the recorder
followed by the callback run along the visited nodes. -/
theorem proc_list_feed (os : OsLinux) (fuel : Nat) (f : σ → proc_t → walk_e × σ) (s : σ) :
    os.proc_list fuel f s
      = (if (feed f (os.visited fuel) s).1 then Exit.returned true
         else (os.proc_list fuel note []).1,
         (feed f (os.visited fuel) s).2) := by
  unfold visited proc_list
  cases hcur : os.core_.os.proc_current with
  | none => simp [feed]
  | some proc =>
    simp only []
    rw [loop_feed os _ _ f]
    generalize proc_list_loop os (os.core_.make proc)
      (add64 os.init_task_addr_ os.members_.tasks) note fuel
      (Reader.read os.core_ (os.core_.make proc) (add64 os.init_task_addr_ os.members_.tasks))
      [] = full
    obtain ⟨e, tr⟩ := full
    cases e <;> cases hb : (feed f tr s).1 <;> simp [hb]

/-- On a well-formed list and with enough fuel, the traversal returns true and
has visited the handles of the links whose page-table root is readable. -/
theorem proc_list_chain (os : OsLinux) (proc : proc_t) (links : List Nat) (fuel : Nat)
    (hcur : os.core_.os.proc_current = some proc) (hwf : os.well_formed proc links)
    (hfuel : links.length < fuel) :
    os.proc_list fuel note []
      = (Exit.returned true, links.filterMap (os.node_at (os.core_.make proc))) := by
  unfold proc_list
  simp only [hcur]
  rw [loop_chain os _ _ links _ fuel hwf hfuel]

/-- When every link has a readable page-table root, the handles of the links
are the objects the links are embedded in. -/
theorem filterMap_node_ids (os : OsLinux) (r : Reader) :
    ∀ (links : List Nat), (∀ l ∈ links, (os.node_at r l).isSome = true) →
      (links.filterMap (os.node_at r)).map proc_t.id
        = links.map (fun l => sub64 l os.members_.tasks) := by
  intro links
  induction links with
  | nil => intro _; rfl
  | cons l ls ih =>
    intro h
    have hl := h l (List.mem_cons_self l ls)
    have hls := ih (fun x hx => h x (List.mem_cons_of_mem l hx))
    cases hn : os.node_at r l with
    | none => rw [hn] at hl; cases hl
    | some p =>
      have hid : p.id = sub64 l os.members_.tasks := by
        simp only [node_at, Option.map_eq_some'] at hn
        obtain ⟨pgd, _, rfl⟩ := hn
        rfl
      simp [List.filterMap_cons, hn, hid, hls]

/-- A callback that stops at the first handle satisfying `P`, keeping it, finds
the first such handle of a list. -/
theorem feed_find (P : proc_t → Bool) (f : Option proc_t → proc_t → walk_e × Option proc_t)
    (hf : ∀ found p, f found p
      = if P p = true then (walk_e.WALK_STOP, some p) else (walk_e.WALK_NEXT, found)) :
    ∀ (tr : List proc_t) (found : Option proc_t),
      feed f tr found = match tr.find? P with
        | some h => (true, some h)
        | none => (false, found) := by
  intro tr
  induction tr with
  | nil => intro found; simp [feed]
  | cons p ps ih =>
    intro found
    cases hp : P p
    · simp [feed, hf, hp, ih found, List.find?_cons]
    · simp [feed, hf, hp, List.find?_cons]

/-- The traversal under such a callback returns true with the first visited
handle satisfying `P`; without one it ends as the full traversal does, with
nothing found. -/
theorem proc_list_find (os : OsLinux) (fuel : Nat) (P : proc_t → Bool)
    (f : Option proc_t → proc_t → walk_e × Option proc_t)
    (hf : ∀ found p, f found p
      = if P p = true then (walk_e.WALK_STOP, some p) else (walk_e.WALK_NEXT, found)) :
    os.proc_list fuel f none = match (os.visited fuel).find? P with
      | some h => (Exit.returned true, some h)
      | none => ((os.proc_list fuel note []).1, none) := by
  rw [proc_list_feed, feed_find P f hf]
  cases (os.visited fuel).find? P <;> simp

theorem proc_find_name_fn_eq (os : OsLinux) (name : List Byte) (found : Option proc_t)
    (p : proc_t) :
    os.proc_find_name_fn name found p
      = if decide (os.proc_name p = some name) = true then (walk_e.WALK_STOP, some p)
        else (walk_e.WALK_NEXT, found) := by
  unfold proc_find_name_fn
  by_cases h : os.proc_name p = some name <;> simp [h]

theorem proc_find_pid_fn_eq (os : OsLinux) (pid : Nat) (found : Option proc_t) (p : proc_t) :
    os.proc_find_pid_fn pid found p
      = if decide (os.proc_id p = pid) = true then (walk_e.WALK_STOP, some p)
        else (walk_e.WALK_NEXT, found) := by
  unfold proc_find_pid_fn
  by_cases h : os.proc_id p = pid <;> simp [h]

/-- What `proc_find(name)` returns, in terms of the visited nodes. -/
theorem proc_find_name_eq (os : OsLinux) (fuel : Nat) (name : List Byte) :
    os.proc_find_name fuel name
      = match (os.visited fuel).find? (fun p => decide (os.proc_name p = some name)) with
        | some h => Exit.returned (some h)
        | none =>
          match (os.proc_list fuel note []).1 with
          | Exit.returned _ => Exit.returned none
          | Exit.fault f => Exit.fault f
          | Exit.out_of_fuel => Exit.out_of_fuel := by
  unfold proc_find_name
  rw [proc_list_find os fuel _ _ (proc_find_name_fn_eq os name)]
  cases (os.visited fuel).find? (fun p => decide (os.proc_name p = some name)) with
  | some h => rfl
  | none => cases (os.proc_list fuel note []).1 <;> rfl

/-- What `proc_find(pid)` returns, in terms of the visited nodes. -/
theorem proc_find_pid_eq (os : OsLinux) (fuel : Nat) (pid : Nat) :
    os.proc_find_pid fuel pid
      = match (os.visited fuel).find? (fun p => decide (os.proc_id p = pid)) with
        | some h => Exit.returned (some h)
        | none =>
          match (os.proc_list fuel note []).1 with
          | Exit.returned _ => Exit.returned none
          | Exit.fault f => Exit.fault f
          | Exit.out_of_fuel => Exit.out_of_fuel := by
  unfold proc_find_pid
  rw [proc_list_find os fuel _ _ (proc_find_pid_fn_eq os pid)]
  cases (os.visited fuel).find? (fun p => decide (os.proc_id p = pid)) with
  | some h => rfl
  | none => cases (os.proc_list fuel note []).1 <;> rfl

/-- The first element found by `find?` splits the list. -/
theorem find_split {α : Type} (P : α → Prop) [DecidablePred P] (l : List α) (h : α)
    (hfind : l.find? (fun p => decide (P p)) = some h) :
    ∃ before after, l = before ++ h :: after ∧ P h ∧ ∀ q ∈ before, ¬ P q := by
  rw [List.find?_eq_some] at hfind
  obtain ⟨hP, as, bs, hl, hnot⟩ := hfind
  exact ⟨as, bs, hl, by simpa using hP, fun q hq => by simpa using hnot q hq⟩

theorem find_first {α : Type} (P : α → Prop) [DecidablePred P] (l before after : List α)
    (h : α) (hl : l = before ++ h :: after) (hP : P h) (hnot : ∀ q ∈ before, ¬ P q) :
    l.find? (fun p => decide (P p)) = some h := by
  rw [List.find?_eq_some]
  exact ⟨by simpa using hP, before, after, hl, fun q hq => by simpa using hnot q hq⟩

/-- The name search returns `some h` exactly when `h` is the first visited node
whose name is `name`. -/
theorem proc_find_name_iff (os : OsLinux) (fuel : Nat) (name : List Byte) (h : proc_t) :
    os.proc_find_name fuel name = Exit.returned (some h) ↔
      ∃ before after, os.visited fuel = before ++ h :: after ∧ os.proc_name h = some name ∧
        ∀ q ∈ before, os.proc_name q ≠ some name := by
  rw [proc_find_name_eq]
  constructor
  · intro hm
    cases hfind : (os.visited fuel).find? (fun p => decide (os.proc_name p = some name)) with
    | none =>
      rw [hfind] at hm
      cases he : (os.proc_list fuel note []).1 <;> rw [he] at hm <;> cases hm
    | some x =>
      rw [hfind] at hm
      cases hm
      exact find_split (fun p => os.proc_name p = some name) _ h hfind
  · rintro ⟨before, after, hl, hP, hnot⟩
    rw [find_first (fun p => os.proc_name p = some name) _ before after h hl hP hnot]

/-- The pid search returns `some h` exactly when `h` is the first visited node
whose id is `pid`. -/
theorem proc_find_pid_iff (os : OsLinux) (fuel : Nat) (pid : Nat) (h : proc_t) :
    os.proc_find_pid fuel pid = Exit.returned (some h) ↔
      ∃ before after, os.visited fuel = before ++ h :: after ∧ os.proc_id h = pid ∧
        ∀ q ∈ before, os.proc_id q ≠ pid := by
  rw [proc_find_pid_eq]
  constructor
  · intro hm
    cases hfind : (os.visited fuel).find? (fun p => decide (os.proc_id p = pid)) with
    | none =>
      rw [hfind] at hm
      cases he : (os.proc_list fuel note []).1 <;> rw [he] at hm <;> cases hm
    | some x =>
      rw [hfind] at hm
      cases hm
      exact find_split (fun p => os.proc_id p = pid) _ h hfind
  · rintro ⟨before, after, hl, hP, hnot⟩
    rw [find_first (fun p => os.proc_id p = pid) _ before after h hl hP hnot]

/-- Some element of a list satisfies a predicate exactly when the list splits
at a first such element. -/
theorem exists_first {α : Type} (P : α → Prop) [DecidablePred P] (l : List α) :
    (∃ p ∈ l, P p) ↔
      ∃ h before after, l = before ++ h :: after ∧ P h ∧ ∀ q ∈ before, ¬ P q := by
  constructor
  · rintro ⟨p, hp, hP⟩
    have hs : (l.find? (fun p => decide (P p))).isSome = true :=
      List.find?_isSome.mpr ⟨p, hp, by simpa using hP⟩
    obtain ⟨h, hh⟩ := Option.isSome_iff_exists.mp hs
    rw [List.find?_eq_some] at hh
    obtain ⟨hPh, as, bs, hl, hnot⟩ := hh
    exact ⟨h, as, bs, hl, by simpa using hPh, fun q hq => by simpa using hnot q hq⟩
  · rintro ⟨h, before, after, hl, hP, _⟩
    exact ⟨h, by rw [hl]; simp, hP⟩

end OsLinux

/-! ## The claims on process enumeration -/

section Enumeration

open OsLinux Synthetic

/-- C1, as amended.  When the module attached to the core reports a current
process, the next-pointers from the sentinel `init_task_addr_ + tasks` form a
well-formed circular list of `N` links that returns to the sentinel, the
page-table root of every node is readable and the callback always continues,
then with fuel for `N + 1` loop tests `proc_list` returns true and has called
the callback exactly `N` times, once per node in list order. -/
theorem proc_list_visits_each_node {σ : Type} (os : OsLinux) (proc : proc_t)
    (links : List Nat) (f : σ → proc_t → walk_e × σ) (s : σ) (fuel : Nat)
    (hcur : os.core_.os.proc_current = some proc)
    (hwf : os.well_formed proc links)
    (hpgd : ∀ l ∈ links, (os.node_at (os.core_.make proc) l).isSome = true)
    (hf : ∀ s p, (f s p).1 = walk_e.WALK_NEXT)
    (hfuel : links.length < fuel) :
    (os.proc_list fuel (recording f) (s, [])).1 = Exit.returned true ∧
    (os.proc_list fuel (recording f) (s, [])).2.2.length = links.length ∧
    (os.proc_list fuel (recording f) (s, [])).2.2.map proc_t.id
      = links.map (fun l => sub64 l os.members_.tasks) := by
  have hv : os.visited fuel = links.filterMap (os.node_at (os.core_.make proc)) := by
    unfold visited
    rw [proc_list_chain os proc links fuel hcur hwf hfuel]
  have hids := filterMap_node_ids os (os.core_.make proc) links hpgd
  have hstop := feed_never_stops f hf (os.visited fuel) s
  rw [proc_list_feed, feed_recording, hstop.1, hstop.2,
    proc_list_chain os proc links fuel hcur hwf hfuel]
  simp only [Option.getD_none, List.take_length, List.nil_append, hv]
  refine ⟨by simp, ?_, hids⟩
  have := congrArg List.length hids
  simpa using this

/-- C1, witness: two tasks after the sentinel, a counting callback. -/
theorem proc_list_visits_each_node_witness :
    (two_tasks.proc_list 3 (recording count_on) (0, [])).1 = Exit.returned true ∧
    (two_tasks.proc_list 3 (recording count_on) (0, [])).2.2.length = 2 ∧
    (two_tasks.proc_list 3 (recording count_on) (0, [])).2.2.map proc_t.id
      = [0x2000, 0x3000] :=
  proc_list_visits_each_node two_tasks current [0x2010, 0x3010] count_on 0 3 rfl
    (by simp only [well_formed, is_chain]; decide) (by decide) (fun _ _ => rfl) (by decide)

/-- C1, counterexample.  Both guests hold a well-formed circular list of one
node.  In the first the page-table root of the node is unreadable: `proc_list`
returns true and has not called the callback at all.  In the second the
attached module reports no current process: `proc_list` returns false. -/
theorem proc_list_misses_node :
    (one_unreadable.well_formed current [0x2010] ∧
      one_unreadable.proc_list 2 note [] = (Exit.returned true, [])) ∧
    (one_no_current.well_formed current [0x2010] ∧
      one_no_current.proc_list 2 note [] = (Exit.returned false, [])) := by
  refine ⟨⟨?_, by decide⟩, ⟨?_, by decide⟩⟩
  · simp only [well_formed, is_chain]; decide
  · simp only [well_formed, is_chain]; decide

/-- C2, as amended.  Let three entries A, B, C be linked after the sentinel of
`init_task` and back to it (sentinel -> A -> B -> C -> sentinel), with the
attached module reporting a current process and the three page-table roots
readable.  Then `proc_list` calls the callback with the handles of A, B and C,
in that order and no further time, and returns true; the `proc_id` of these
handles are the values stored in the pid fields of A, B and C. -/
theorem proc_list_three_entries (os : OsLinux) (proc : proc_t) (a b c : Nat)
    (pa pb pc : proc_t) (pidA pidB pidC fuel : Nat)
    (hcur : os.core_.os.proc_current = some proc)
    (hwf : os.well_formed proc [a, b, c])
    (ha : os.node_at (os.core_.make proc) a = some pa)
    (hb : os.node_at (os.core_.make proc) b = some pb)
    (hc : os.node_at (os.core_.make proc) c = some pc)
    (hpidA : (os.core_.make pa).le32 os.core_ (add64 pa.id os.members_.pid) = some pidA)
    (hpidB : (os.core_.make pb).le32 os.core_ (add64 pb.id os.members_.pid) = some pidB)
    (hpidC : (os.core_.make pc).le32 os.core_ (add64 pc.id os.members_.pid) = some pidC)
    (hfuel : 3 < fuel) :
    os.proc_list fuel note [] = (Exit.returned true, [pa, pb, pc]) ∧
    [pa, pb, pc].map os.proc_id = [pidA, pidB, pidC] ∧
    [pa, pb, pc].map proc_t.id
      = [sub64 a os.members_.tasks, sub64 b os.members_.tasks, sub64 c os.members_.tasks] := by
  have hsome : ∀ l ∈ [a, b, c], (os.node_at (os.core_.make proc) l).isSome = true := by
    intro l hl
    simp only [List.mem_cons, List.mem_singleton, List.not_mem_nil, or_false] at hl
    rcases hl with rfl | rfl | rfl
    · rw [ha]; rfl
    · rw [hb]; rfl
    · rw [hc]; rfl
  have hids := filterMap_node_ids os (os.core_.make proc) [a, b, c] hsome
  have hlist : [a, b, c].filterMap (os.node_at (os.core_.make proc)) = [pa, pb, pc] := by
    simp [List.filterMap_cons, ha, hb, hc]
  rw [hlist] at hids
  refine ⟨?_, ?_, by simpa using hids⟩
  · rw [proc_list_chain os proc [a, b, c] fuel hcur hwf (by simpa using hfuel), hlist]
  · simp [proc_id, hpidA, hpidB, hpidC]

/-- C2, witness: the synthetic guest with A, B, C after the sentinel. -/
theorem proc_list_three_entries_witness :
    three_after_sentinel.proc_list 4 note []
      = (Exit.returned true,
          [⟨0x2000, ⟨0x6000⟩⟩, ⟨0x3000, ⟨0x7000⟩⟩, ⟨0x4000, ⟨0x8000⟩⟩]) ∧
    ([⟨0x2000, ⟨0x6000⟩⟩, ⟨0x3000, ⟨0x7000⟩⟩, ⟨0x4000, ⟨0x8000⟩⟩] : List proc_t).map
        three_after_sentinel.proc_id = [7, 8, 9] ∧
    ([⟨0x2000, ⟨0x6000⟩⟩, ⟨0x3000, ⟨0x7000⟩⟩, ⟨0x4000, ⟨0x8000⟩⟩] : List proc_t).map proc_t.id
      = [sub64 0x2010 three_after_sentinel.members_.tasks,
         sub64 0x3010 three_after_sentinel.members_.tasks,
         sub64 0x4010 three_after_sentinel.members_.tasks] :=
  proc_list_three_entries three_after_sentinel current 0x2010 0x3010 0x4010
    ⟨0x2000, ⟨0x6000⟩⟩ ⟨0x3000, ⟨0x7000⟩⟩ ⟨0x4000, ⟨0x8000⟩⟩ 7 8 9 4 rfl
    (by simp only [well_formed, is_chain]; decide) (by decide) (by decide) (by decide)
    (by decide) (by decide) (by decide) (by decide)

/-- C2, counterexample.  In the three-entry circular process list
A -> B -> C -> A whose entry A is `init_task`, with every field readable and
pids 7, 8, 9, the link of A is the sentinel: `proc_list` calls the callback
with the handles of B and C only, whose `proc_id` are 8 and 9, and returns
true.  The pid 7 of A is never delivered. -/
theorem proc_list_skips_init_task :
    ((ring_of_three.core_.make current).read ring_of_three.core_ 0x1010 = some 0x2010 ∧
      (ring_of_three.core_.make current).read ring_of_three.core_ 0x2010 = some 0x3010 ∧
      (ring_of_three.core_.make current).read ring_of_three.core_ 0x3010 = some 0x1010) ∧
    ring_of_three.proc_id ⟨0x1000, ⟨0x5000⟩⟩ = 7 ∧
    ring_of_three.proc_list 3 note []
      = (Exit.returned true, [⟨0x2000, ⟨0x6000⟩⟩, ⟨0x3000, ⟨0x7000⟩⟩]) ∧
    (ring_of_three.proc_list 3 note []).2.map ring_of_three.proc_id = [8, 9] := by
  decide

/-- C3.  For every guest, fuel, name and pid: `proc_find(name)` returns a handle
`h` exactly when `h` is the first node, in the order of the `proc_list`
traversal, whose `proc_name` is `name`; `proc_find(pid)` returns `h` exactly
when `h` is the first visited node whose `proc_id` is `pid`; hence each returns
some handle exactly when some visited node satisfies its predicate.  When the
full traversal returns within the fuel, so do both searches. -/
theorem proc_find_first_match (os : OsLinux) (fuel : Nat) (name : List Byte) (pid : Nat) :
    (∀ h, os.proc_find_name fuel name = Exit.returned (some h) ↔
      ∃ before after, os.visited fuel = before ++ h :: after ∧ os.proc_name h = some name ∧
        ∀ q ∈ before, os.proc_name q ≠ some name) ∧
    (∀ h, os.proc_find_pid fuel pid = Exit.returned (some h) ↔
      ∃ before after, os.visited fuel = before ++ h :: after ∧ os.proc_id h = pid ∧
        ∀ q ∈ before, os.proc_id q ≠ pid) ∧
    ((∃ h, os.proc_find_name fuel name = Exit.returned (some h)) ↔
      ∃ p ∈ os.visited fuel, os.proc_name p = some name) ∧
    ((∃ h, os.proc_find_pid fuel pid = Exit.returned (some h)) ↔
      ∃ p ∈ os.visited fuel, os.proc_id p = pid) ∧
    (∀ b, (os.proc_list fuel note []).1 = Exit.returned b →
      (∃ r, os.proc_find_name fuel name = Exit.returned r) ∧
      (∃ r, os.proc_find_pid fuel pid = Exit.returned r)) := by
  refine ⟨proc_find_name_iff os fuel name, proc_find_pid_iff os fuel pid, ?_, ?_, ?_⟩
  · rw [exists_first (fun p => os.proc_name p = some name)]
    exact exists_congr (proc_find_name_iff os fuel name)
  · rw [exists_first (fun p => os.proc_id p = pid)]
    exact exists_congr (proc_find_pid_iff os fuel pid)
  · intro b hb
    rw [proc_find_name_eq, proc_find_pid_eq, hb]
    constructor
    · cases (os.visited fuel).find? (fun p => decide (os.proc_name p = some name)) with
      | none => exact ⟨none, rfl⟩
      | some x => exact ⟨some x, rfl⟩
    · cases (os.visited fuel).find? (fun p => decide (os.proc_id p = pid)) with
      | none => exact ⟨none, rfl⟩
      | some x => exact ⟨some x, rfl⟩

/-- C3, an instance: among the two tasks with pids 5 and 6, the search for pid 6
returns the second one. -/
theorem proc_find_first_match_witness :
    two_tasks.proc_find_pid 3 6 = Exit.returned (some task_b) :=
  ((proc_find_first_match two_tasks 3 [] 6).2.1 task_b).mpr
    ⟨[task_a], [], by decide, by decide, by decide⟩

/-- C4.  For every guest, fuel and callback: if, along the nodes of the full
traversal, the callback first asks to stop at the `k`-th node, then `proc_list`
returns true, the handles it has passed to the callback are exactly the first
`k` nodes of the full traversal, and the callback is left in the state it has
after those `k` nodes. -/
theorem proc_list_stops_at {σ : Type} (os : OsLinux) (fuel : Nat)
    (f : σ → proc_t → walk_e × σ) (s : σ) (k : Nat)
    (hstop : first_stop f (os.visited fuel) s = some k) :
    (os.proc_list fuel (recording f) (s, [])).1 = Exit.returned true ∧
    (os.proc_list fuel (recording f) (s, [])).2.2 = (os.visited fuel).take k ∧
    (os.proc_list fuel (recording f) (s, [])).2.2.length = k ∧
    (os.proc_list fuel (recording f) (s, [])).2.1 = (feed f ((os.visited fuel).take k) s).2 := by
  obtain ⟨h1, h2, h3, h4⟩ := first_stop_spec f (os.visited fuel) s k hstop
  rw [proc_list_feed, feed_recording, h3, hstop, h4]
  simp only [if_true, Option.getD_some, List.nil_append, List.length_take]
  exact ⟨trivial, trivial, by omega, trivial⟩

/-- C4, witness: among two tasks, a callback that stops at once is given the
first task only. -/
theorem proc_list_stops_at_witness :
    (two_tasks.proc_list 3 (recording stop_at_once) ((), [])).1 = Exit.returned true ∧
    (two_tasks.proc_list 3 (recording stop_at_once) ((), [])).2.2
      = (two_tasks.visited 3).take 1 ∧
    (two_tasks.proc_list 3 (recording stop_at_once) ((), [])).2.2.length = 1 ∧
    (two_tasks.proc_list 3 (recording stop_at_once) ((), [])).2.1
      = (feed stop_at_once ((two_tasks.visited 3).take 1) ()).2 :=
  proc_list_stops_at two_tasks 3 stop_at_once () 1 (by decide)

end Enumeration

/-! ## Lemmas on reads -/

theorem add64_lt (a b : Nat) : add64 a b < 2 ^ 64 := by
  unfold add64
  omega

theorem add64_zero (a : Nat) (h : a < 2 ^ 64) : add64 a 0 = a := by
  unfold add64
  omega

theorem add64_succ (a i : Nat) : add64 (add64 a 1) i = add64 a (i + 1) := by
  unfold add64
  omega

namespace Reader

/-- A successful range read has the asked length and holds, at each index, the
guest byte at that distance from the start. -/
theorem read_buf_spec (core : Core) (r : Reader) :
    ∀ (n src : Nat) (buf : List Byte), src < 2 ^ 64 → read_buf core r src n = some buf →
      buf.length = n ∧ ∀ i, i < n → core.byte r (add64 src i) = buf[i]? := by
  intro n
  induction n with
  | zero =>
    intro src buf _ h
    simp only [read_buf, Option.some.injEq] at h
    subst h
    exact ⟨rfl, fun i hi => absurd hi (Nat.not_lt_zero i)⟩
  | succ n ih =>
    intro src buf hsrc h
    unfold read_buf at h
    cases hb : core.byte r src with
    | none => simp [hb] at h
    | some b =>
      cases hrest : read_buf core r (add64 src 1) n with
      | none => simp [hb, hrest] at h
      | some bs =>
        simp only [hb, hrest, Option.some.injEq] at h
        subst h
        obtain ⟨hlen, hbytes⟩ := ih (add64 src 1) bs (add64_lt src 1) hrest
        refine ⟨by simp [hlen], ?_⟩
        intro i hi
        cases i with
        | zero => simp [add64_zero src hsrc, hb]
        | succ j =>
          rw [← add64_succ, hbytes j (by omega)]
          simp

/-- A range read fails only when one of its bytes is unreadable. -/
theorem read_buf_none (core : Core) (r : Reader) :
    ∀ (n src : Nat), src < 2 ^ 64 → read_buf core r src n = none →
      ∃ i, i < n ∧ core.byte r (add64 src i) = none := by
  intro n
  induction n with
  | zero => intro src _ h; simp [read_buf] at h
  | succ n ih =>
    intro src hsrc h
    unfold read_buf at h
    cases hb : core.byte r src with
    | none => exact ⟨0, by omega, by rw [add64_zero src hsrc, hb]⟩
    | some b =>
      cases hrest : read_buf core r (add64 src 1) n with
      | none =>
        obtain ⟨i, hi, hbyte⟩ := ih (add64 src 1) (add64_lt src 1) hrest
        exact ⟨i + 1, by omega, by rw [← add64_succ, hbyte]⟩
      | some bs => simp [hb, hrest] at h

/-- A range read depends on the bytes of its range only. -/
theorem read_buf_congr (core1 core2 : Core) (r1 r2 : Reader) :
    ∀ (n src : Nat), src < 2 ^ 64 →
      (∀ i, i < n → core1.byte r1 (add64 src i) = core2.byte r2 (add64 src i)) →
      read_buf core1 r1 src n = read_buf core2 r2 src n := by
  intro n
  induction n with
  | zero => intro src _ _; rfl
  | succ n ih =>
    intro src hsrc h
    have h0 := h 0 (by omega)
    rw [add64_zero src hsrc] at h0
    have hrest := ih (add64 src 1) (add64_lt src 1)
      (fun i hi => by rw [add64_succ]; exact h (i + 1) (by omega))
    simp only [read_buf, h0, hrest]

/-- A little-endian value of four bytes fits 32 bits. -/
theorem le_value_four (buf : List Byte) (h : buf.length = 4) : le_value buf < 2 ^ 32 := by
  match buf, h with
  | [b0, b1, b2, b3], _ =>
    simp only [le_value]
    omega

theorem le32_lt (core : Core) (r : Reader) (ptr v : Nat) (hptr : ptr < 2 ^ 64)
    (h : le32 core r ptr = some v) : v < 2 ^ 32 := by
  simp only [le32, Option.map_eq_some'] at h
  obtain ⟨buf, hbuf, rfl⟩ := h
  exact le_value_four buf (read_buf_spec core r 4 ptr buf hptr hbuf).1

end Reader

namespace OsLinux

/-- Stopping at the first NUL of a buffer that ends in a NUL never reaches that
last byte. -/
theorem takeWhile_append_nul (l : List Byte) :
    (l ++ [0]).takeWhile (fun c => decide (c ≠ 0)) = l.takeWhile (fun c => decide (c ≠ 0)) := by
  induction l with
  | nil => simp [List.takeWhile]
  | cons x xs ih =>
    by_cases hx : x = 0
    · simp [List.takeWhile, hx]
    · have hd : decide (x ≠ 0) = true := by simpa using hx
      rw [List.cons_append, List.takeWhile_cons, List.takeWhile_cons, hd]
      simp only [if_true]
      rw [ih]

/-- What `proc_name` returns when its read succeeds: the first 14 bytes of the
buffer up to their first NUL. -/
theorem proc_name_eq (os : OsLinux) (proc : proc_t) (buffer : List Byte)
    (hread : (os.core_.make proc).read_buf os.core_ (add64 proc.id os.members_.name) 15
      = some buffer) :
    os.proc_name proc = some ((buffer.take 14).takeWhile (fun c => decide (c ≠ 0))) := by
  have hlen := (Reader.read_buf_spec os.core_ _ 15 _ buffer (add64_lt _ _) hread).1
  have hset : buffer.set 14 0 = buffer.take 14 ++ [0] := by
    rw [List.set_eq_take_append_cons_drop, if_pos (by omega),
      List.drop_of_length_le (by omega)]
  unfold proc_name
  simp only [Nat.reduceAdd, Nat.add_one_sub_one, hread, hset, takeWhile_append_nul, ite_self]

end OsLinux

namespace Reader

/-- A range read succeeds with the bytes found in its range when all of them
are readable. -/
theorem read_buf_of_bytes (core : Core) (r : Reader) :
    ∀ (n src : Nat) (buf : List Byte), src < 2 ^ 64 → buf.length = n →
      (∀ i, i < n → core.byte r (add64 src i) = buf[i]?) → read_buf core r src n = some buf := by
  intro n
  induction n with
  | zero =>
    intro src buf _ hlen _
    rw [List.length_eq_zero.mp hlen]
    rfl
  | succ n ih =>
    intro src buf hsrc hlen h
    match buf, hlen with
    | b :: bs, hlen =>
      have h0 := h 0 (by omega)
      rw [add64_zero src hsrc] at h0
      have hrest := ih (add64 src 1) bs (add64_lt src 1) (by simpa using hlen)
        (fun i hi => by rw [add64_succ, h (i + 1) (by omega)]; simp)
      simp only [List.getElem?_cons_zero] at h0
      simp only [read_buf, h0, hrest]

end Reader

/-! ## The claims on names and ids -/

section Fields

open OsLinux Synthetic

/-- C5.  When `proc_name` succeeds, its result has at most 14 bytes; all 15
bytes of the field at `proc.id + name` were readable; the result is the same in
any guest that agrees on these 15 bytes, whatever lies past them; and if none
of the 15 bytes is NUL the result has exactly 14 bytes, the first 14 bytes of
the field. -/
theorem proc_name_within_field (os : OsLinux) (proc : proc_t) (name : List Byte)
    (hname : os.proc_name proc = some name) :
    name.length ≤ 14 ∧
    (∀ i, i < 15 → (os.core_.byte (os.core_.make proc)
        (add64 (add64 proc.id os.members_.name) i)).isSome = true) ∧
    (∀ os2 : OsLinux, os2.members_.name = os.members_.name →
      (∀ i, i < 15 →
        os2.core_.byte (os2.core_.make proc) (add64 (add64 proc.id os.members_.name) i)
          = os.core_.byte (os.core_.make proc) (add64 (add64 proc.id os.members_.name) i)) →
      os2.proc_name proc = some name) ∧
    ((∀ i, i < 15 → os.core_.byte (os.core_.make proc)
        (add64 (add64 proc.id os.members_.name) i) ≠ some 0) →
      name.length = 14 ∧
      ∀ i, i < 14 → os.core_.byte (os.core_.make proc)
        (add64 (add64 proc.id os.members_.name) i) = name[i]?) := by
  cases hread : (os.core_.make proc).read_buf os.core_ (add64 proc.id os.members_.name) 15 with
  | none =>
    unfold proc_name at hname
    simp [hread] at hname
  | some buffer =>
    obtain ⟨hlen, hbytes⟩ :=
      Reader.read_buf_spec os.core_ _ 15 _ buffer (add64_lt _ _) hread
    rw [proc_name_eq os proc buffer hread, Option.some.injEq] at hname
    subst hname
    refine ⟨?_, ?_, ?_, ?_⟩
    · have h := (List.takeWhile_prefix (l := buffer.take 14)
        (fun c => decide (c ≠ 0))).length_le
      rw [List.length_take] at h
      omega
    · intro i hi
      rw [hbytes i hi]
      have hlt : i < buffer.length := by omega
      simp [List.getElem?_eq_getElem hlt]
    · intro os2 hoff hsame
      apply proc_name_eq
      rw [hoff, Reader.read_buf_congr os2.core_ os.core_ _ (os.core_.make proc) 15 _
        (add64_lt _ _) hsame]
      exact hread
    · intro hnz
      have hall : (buffer.take 14).takeWhile (fun c => decide (c ≠ 0)) = buffer.take 14 := by
        rw [List.takeWhile_eq_self_iff]
        intro x hx
        obtain ⟨i, hi⟩ := List.mem_iff_getElem?.mp hx
        rw [List.getElem?_take] at hi
        by_cases hlt : i < 14
        · rw [if_pos hlt, ← hbytes i (by omega)] at hi
          have := hnz i (by omega)
          rw [hi] at this
          simpa using this
        · rw [if_neg hlt] at hi
          cases hi
      rw [hall]
      refine ⟨by rw [List.length_take]; omega, ?_⟩
      intro i hi
      rw [List.getElem?_take_of_lt hi, hbytes i (by omega)]

/-- C5, witness: a name field of fifteen bytes `0x41` yields fourteen of them. -/
theorem proc_name_within_field_witness :
    named_task.proc_name task_a = some (List.replicate 14 0x41) ∧
    (List.replicate 14 (0x41 : Byte)).length ≤ 14 ∧
    (∀ os2 : OsLinux, os2.members_.name = named_task.members_.name →
      (∀ i, i < 15 →
        os2.core_.byte (os2.core_.make task_a)
            (add64 (add64 task_a.id named_task.members_.name) i)
          = named_task.core_.byte (named_task.core_.make task_a)
            (add64 (add64 task_a.id named_task.members_.name) i)) →
      os2.proc_name task_a = some (List.replicate 14 0x41)) ∧
    (List.replicate 14 (0x41 : Byte)).length = 14 :=
  ⟨by decide,
   (proc_name_within_field named_task task_a (List.replicate 14 0x41) (by decide)).1,
   (proc_name_within_field named_task task_a (List.replicate 14 0x41) (by decide)).2.2.1,
   ((proc_name_within_field named_task task_a (List.replicate 14 0x41) (by decide)).2.2.2
     (by decide)).1⟩

/-- C6.  The method `proc_id` returns the 32-bit little-endian integer stored
at `proc.id + pid` when that read succeeds, a value below `2 ^ 32`, and 0 when
the read fails; so it returns 0 exactly when the read fails or reads 0.  In
bytes: when the four bytes are readable the result is
`b0 + 2^8 b1 + 2^16 b2 + 2^24 b3`, and when one is unreadable it is 0. -/
theorem proc_id_zero_extends (os : OsLinux) (proc : proc_t) :
    (∀ pid, (os.core_.make proc).le32 os.core_ (add64 proc.id os.members_.pid) = some pid →
      os.proc_id proc = pid ∧ pid < 2 ^ 32) ∧
    ((os.core_.make proc).le32 os.core_ (add64 proc.id os.members_.pid) = none →
      os.proc_id proc = 0) ∧
    os.proc_id proc < 2 ^ 32 ∧
    (os.proc_id proc = 0 ↔
      (os.core_.make proc).le32 os.core_ (add64 proc.id os.members_.pid) = none ∨
      (os.core_.make proc).le32 os.core_ (add64 proc.id os.members_.pid) = some 0) ∧
    (∀ b0 b1 b2 b3 : Byte,
      os.core_.byte (os.core_.make proc) (add64 (add64 proc.id os.members_.pid) 0) = some b0 →
      os.core_.byte (os.core_.make proc) (add64 (add64 proc.id os.members_.pid) 1) = some b1 →
      os.core_.byte (os.core_.make proc) (add64 (add64 proc.id os.members_.pid) 2) = some b2 →
      os.core_.byte (os.core_.make proc) (add64 (add64 proc.id os.members_.pid) 3) = some b3 →
      os.proc_id proc = b0.val + 2 ^ 8 * b1.val + 2 ^ 16 * b2.val + 2 ^ 24 * b3.val) ∧
    ((∃ i, i < 4 ∧ os.core_.byte (os.core_.make proc)
        (add64 (add64 proc.id os.members_.pid) i) = none) → os.proc_id proc = 0) := by
  have hsome : ∀ pid,
      (os.core_.make proc).le32 os.core_ (add64 proc.id os.members_.pid) = some pid →
      os.proc_id proc = pid := by
    intro pid h
    simp [proc_id, h]
  have hnone : (os.core_.make proc).le32 os.core_ (add64 proc.id os.members_.pid) = none →
      os.proc_id proc = 0 := by
    intro h
    simp [proc_id, h]
  refine ⟨fun pid h => ⟨hsome pid h, Reader.le32_lt _ _ _ _ (add64_lt _ _) h⟩, hnone, ?_, ?_, ?_, ?_⟩
  · cases h : (os.core_.make proc).le32 os.core_ (add64 proc.id os.members_.pid) with
    | none => rw [hnone h]; decide
    | some pid => rw [hsome pid h]; exact Reader.le32_lt _ _ _ _ (add64_lt _ _) h
  · cases h : (os.core_.make proc).le32 os.core_ (add64 proc.id os.members_.pid) with
    | none => simp [hnone h]
    | some pid => simp [hsome pid h]
  · intro b0 b1 b2 b3 h0 h1 h2 h3
    have hbuf : (os.core_.make proc).read_buf os.core_ (add64 proc.id os.members_.pid) 4
        = some [b0, b1, b2, b3] := by
      apply Reader.read_buf_of_bytes os.core_ _ 4 _ [b0, b1, b2, b3] (add64_lt _ _) rfl
      intro i hi
      match i, hi with
      | 0, _ => simpa using h0
      | 1, _ => simpa using h1
      | 2, _ => simpa using h2
      | 3, _ => simpa using h3
    rw [hsome (Reader.le_value [b0, b1, b2, b3]) (by simp [Reader.le32, hbuf])]
    simp only [Reader.le_value]
    omega
  · rintro ⟨i, hi, hbyte⟩
    apply hnone
    cases hbuf : (os.core_.make proc).read_buf os.core_ (add64 proc.id os.members_.pid) 4 with
    | none => simp [Reader.le32, hbuf]
    | some buf =>
      obtain ⟨hlen, hbytes⟩ := Reader.read_buf_spec _ _ 4 _ buf (add64_lt _ _) hbuf
      have := hbytes i hi
      rw [hbyte] at this
      have hlt : i < buf.length := by omega
      simp [List.getElem?_eq_getElem hlt] at this

/-- C6, instances: a pid field holding the bytes 04 03 02 01 reads as
`0x01020304`; an unreadable pid field and a pid field holding 0 both give 0. -/
theorem proc_id_zero_extends_witness :
    named_task.proc_id task_a = 0x01020304 ∧
    ((named_task.core_.make task_b).le32 named_task.core_
        (add64 task_b.id named_task.members_.pid) = none ∧
      named_task.proc_id task_b = 0) ∧
    ((named_task.core_.make task_c).le32 named_task.core_
        (add64 task_c.id named_task.members_.pid) = some 0 ∧
      named_task.proc_id task_c = 0) :=
  ⟨(proc_id_zero_extends named_task task_a).2.2.2.2.1 4 3 2 1
      (by decide) (by decide) (by decide) (by decide),
   ⟨by decide, (proc_id_zero_extends named_task task_b).2.2.2.1.mpr (Or.inl (by decide))⟩,
   ⟨by decide, (proc_id_zero_extends named_task task_c).2.2.2.1.mpr (Or.inr (by decide))⟩⟩

end Fields

/-! ## The claims on the dispatcher without a module -/

section Detached

open Synthetic

variable {τ : Callbacks} {σ : Type}

/-- C7, on the code.  With no module attached `os::can_inject_fault` returns
false and leaves the core as it is, but `os::is_kernel_address` and
`os::write_arg` go through the null `os_` pointer: they fault instead of
returning false. -/
theorem bool_queries_without_module (ptr index : Nat) (arg : arg_t) :
    os.is_kernel_address ({ os_ := none } : os.CorePrivate τ σ) ptr
      = Except.error Fault.null_deref ∧
    os.can_inject_fault ({ os_ := none } : os.CorePrivate τ σ) ptr
      = Except.ok (false, { os_ := none }) ∧
    os.write_arg ({ os_ := none } : os.CorePrivate τ σ) index arg
      = Except.error Fault.null_deref :=
  ⟨rfl, rfl, rfl⟩

/-- C8.  With no module attached `os::reader_setup` returns true for every
reader and every optional process, and leaves the reader (its `udtb_` and
`kdtb_`) and the core unchanged. -/
theorem reader_setup_without_module (core : os.CorePrivate τ σ) (reader : Reader)
    (proc : Option proc_t) (h : core.os_ = none) :
    os.reader_setup core reader proc = Except.ok ((true, reader), core) := by
  simp [os.reader_setup, h]

/-- C8, witness: a detached core, a reader with roots 1 and 2. -/
theorem reader_setup_without_module_witness :
    os.reader_setup detached { udtb_ := ⟨1⟩, kdtb_ := ⟨2⟩ } (some task_a)
      = Except.ok ((true, { udtb_ := ⟨1⟩, kdtb_ := ⟨2⟩ }), detached) :=
  reader_setup_without_module detached { udtb_ := ⟨1⟩, kdtb_ := ⟨2⟩ } (some task_a) rfl

/-- C9, on the code.  With no module attached every listener registration and
both `os::read_stack` and `os::read_arg` go through the null `os_` pointer:
they fault instead of returning the absent value. -/
theorem listeners_without_module (on_proc : τ.on_proc_event_fn)
    (on_thread : τ.on_thread_event_fn) (on_mod : τ.on_mod_event_fn)
    (on_drv : τ.on_drv_event_fn) (index : Nat) :
    os.listen_proc_create ({ os_ := none } : os.CorePrivate τ σ) on_proc
      = Except.error Fault.null_deref ∧
    os.listen_proc_delete ({ os_ := none } : os.CorePrivate τ σ) on_proc
      = Except.error Fault.null_deref ∧
    os.listen_thread_create ({ os_ := none } : os.CorePrivate τ σ) on_thread
      = Except.error Fault.null_deref ∧
    os.listen_thread_delete ({ os_ := none } : os.CorePrivate τ σ) on_thread
      = Except.error Fault.null_deref ∧
    os.listen_mod_create ({ os_ := none } : os.CorePrivate τ σ) on_mod
      = Except.error Fault.null_deref ∧
    os.listen_drv_create ({ os_ := none } : os.CorePrivate τ σ) on_drv
      = Except.error Fault.null_deref ∧
    os.read_stack ({ os_ := none } : os.CorePrivate τ σ) index
      = Except.error Fault.null_deref ∧
    os.read_arg ({ os_ := none } : os.CorePrivate τ σ) index
      = Except.error Fault.null_deref :=
  ⟨rfl, rfl, rfl, rfl, rfl, rfl, rfl, rfl⟩

/-- C10, on the code.  With no module attached `os::unlisten` and
`os::debug_print` go through the null `os_` pointer: they fault instead of
returning 0 or doing nothing. -/
theorem unlisten_without_module (bpid : os.bpid_t) :
    os.unlisten ({ os_ := none } : os.CorePrivate τ σ) bpid = Except.error Fault.null_deref ∧
    os.debug_print ({ os_ := none } : os.CorePrivate τ σ) = Except.error Fault.null_deref :=
  ⟨rfl, rfl⟩

end Detached

/-! ## More lemmas on the traversal -/

namespace OsLinux

variable {σ : Type}

/-- A handle is the one built for a link exactly when its address is the link
minus the offset of the link and its root is the value read at the root field
of that object. -/
theorem node_at_spec (os : OsLinux) (r : Reader) (l : Nat) (p : proc_t) :
    os.node_at r l = some p ↔
      p.id = sub64 l os.members_.tasks ∧
      r.read os.core_ (add64 (sub64 l os.members_.tasks) os.members_.pgd) = some p.dtb.val := by
  unfold node_at
  rw [Option.map_eq_some']
  constructor
  · rintro ⟨pgd, hp, rfl⟩
    exact ⟨rfl, hp⟩
  · rintro ⟨hid, hp⟩
    refine ⟨p.dtb.val, hp, ?_⟩
    obtain ⟨id, ⟨val⟩⟩ := p
    simp only at hid
    rw [hid]

/-- The recorder is given the handles of the links followed, those whose root
is readable. -/
theorem loop_followed (os : OsLinux) (r : Reader) (head : Nat) :
    ∀ (fuel : Nat) (link : Option Nat),
      (proc_list_loop os r head note fuel link []).2
        = (followed os r head fuel link).filterMap (os.node_at r) := by
  intro fuel
  induction fuel with
  | zero => intro link; rfl
  | succ n ih =>
    intro link
    rcases loop_cases head link with h | h | ⟨l, h, hl⟩
    · subst h; simp [loop_head, followed]
    · subst h; simp [loop_absent, followed]
    · subst h
      have hne : (some l : Option Nat) ≠ some head := fun h => hl (Option.some.inj h)
      have hf : followed os r head (n + 1) (some l)
          = l :: followed os r head n (r.read os.core_ l) := by
        simp [followed, hne]
      rw [hf]
      cases hn : os.node_at r l with
      | none =>
        rw [loop_skip _ _ _ _ _ _ _ hl hn, ih]
        simp [List.filterMap_cons, hn]
      | some p =>
        rw [loop_next _ _ _ note _ _ [] ([] ++ [p]) p hl hn rfl, loop_note_acc, ih]
        simp [List.filterMap_cons, hn]

/-- No link followed is the sentinel. -/
theorem followed_ne_head (os : OsLinux) (r : Reader) (head : Nat) :
    ∀ (fuel : Nat) (link : Option Nat), ∀ l ∈ followed os r head fuel link, l ≠ head := by
  intro fuel
  induction fuel with
  | zero => intro link l hl; simp [followed] at hl
  | succ n ih =>
    intro link l hmem
    rcases loop_cases head link with h | h | ⟨l0, h, hl0⟩
    · subst h; simp [followed] at hmem
    · subst h; simp [followed] at hmem
    · subst h
      have hne : (some l0 : Option Nat) ≠ some head := fun h => hl0 (Option.some.inj h)
      simp only [followed, hne, if_false, List.mem_cons] at hmem
      rcases hmem with rfl | hmem
      · exact hl0
      · exact ih _ l hmem

/-- The links followed are, in order, the link first read and then, each time,
the value read at the link before. -/
theorem followed_path (os : OsLinux) (r : Reader) (head : Nat) :
    ∀ (fuel : Nat) (link : Option Nat) (i : Nat), i < (followed os r head fuel link).length →
      (followed os r head fuel link)[i]? = os.link_from r link i := by
  intro fuel
  induction fuel with
  | zero => intro link i hi; simp [followed] at hi
  | succ n ih =>
    intro link i hi
    rcases loop_cases head link with h | h | ⟨l0, h, hl0⟩
    · subst h; simp [followed] at hi
    · subst h; simp [followed] at hi
    · subst h
      have hne : (some l0 : Option Nat) ≠ some head := fun h => hl0 (Option.some.inj h)
      have hf : followed os r head (n + 1) (some l0)
          = l0 :: followed os r head n (r.read os.core_ l0) := by
        simp [followed, hne]
      rw [hf] at hi ⊢
      cases i with
      | zero => simp [link_from]
      | succ j =>
        rw [List.getElem?_cons_succ, ih _ j (by simpa using hi)]
        simp [link_from]

/-- The handles passed to any callback, in terms of the visited nodes. -/
theorem proc_list_recording (os : OsLinux) (fuel : Nat) (f : σ → proc_t → walk_e × σ) (s : σ) :
    os.proc_list fuel (recording f) (s, [])
      = (if (feed f (os.visited fuel) s).1 then Exit.returned true
         else (os.proc_list fuel note []).1,
         ((feed f (os.visited fuel) s).2,
          (os.visited fuel).take ((first_stop f (os.visited fuel) s).getD
            (os.visited fuel).length))) := by
  rw [proc_list_feed, feed_recording]
  simp

/-- The visited nodes are the handles of the links followed from the link read
at the sentinel. -/
theorem visited_followed (os : OsLinux) (proc : proc_t) (fuel : Nat)
    (hcur : os.core_.os.proc_current = some proc) :
    os.visited fuel
      = (followed os (os.core_.make proc) (add64 os.init_task_addr_ os.members_.tasks) fuel
          ((os.core_.make proc).read os.core_
            (add64 os.init_task_addr_ os.members_.tasks))).filterMap
          (os.node_at (os.core_.make proc)) := by
  rw [← loop_followed]
  unfold visited proc_list
  simp only [hcur]
  generalize proc_list_loop os (os.core_.make proc)
    (add64 os.init_task_addr_ os.members_.tasks) note fuel
    (Reader.read os.core_ (os.core_.make proc) (add64 os.init_task_addr_ os.members_.tasks))
    [] = full
  obtain ⟨e, tr⟩ := full
  cases e <;> rfl

/-- A node whose root is unreadable is the object of no handle built from a
list of links. -/
theorem unreadable_not_built (os : OsLinux) (r : Reader) (links : List Nat) (l : Nat)
    (hn : os.node_at r l = none) :
    ∀ p ∈ links.filterMap (os.node_at r), p.id ≠ sub64 l os.members_.tasks := by
  intro p hp hid
  rw [List.mem_filterMap] at hp
  obtain ⟨l1, _, hl1⟩ := hp
  obtain ⟨hid1, hread⟩ := (node_at_spec os r l1 p).mp hl1
  rw [← hid1, hid] at hread
  have : os.node_at r l = some p := (node_at_spec os r l p).mpr ⟨hid, hread⟩
  rw [hn] at this
  cases this

/-- When the link read at the sentinel is absent, the loop dereferences it. -/
theorem proc_list_absent_root (os : OsLinux) (proc : proc_t) (fuel : Nat)
    (f : σ → proc_t → walk_e × σ) (s : σ)
    (hcur : os.core_.os.proc_current = some proc)
    (hroot : (os.core_.make proc).read os.core_
      (add64 os.init_task_addr_ os.members_.tasks) = none) :
    os.proc_list (fuel + 1) f s = (Exit.fault Fault.absent_deref, s) := by
  unfold proc_list
  simp only [hcur, hroot, loop_absent]

/-- Without a current process nothing is walked. -/
theorem proc_list_no_current (os : OsLinux) (fuel : Nat) (f : σ → proc_t → walk_e × σ) (s : σ)
    (hcur : os.core_.os.proc_current = none) :
    os.proc_list fuel f s = (Exit.returned false, s) := by
  unfold proc_list
  simp only [hcur]

/-- The method `proc_id` is 0 exactly when the pid field is unreadable or reads
as 0. -/
theorem proc_id_eq_zero_iff (os : OsLinux) (p : proc_t) :
    os.proc_id p = 0 ↔
      (os.core_.make p).le32 os.core_ (add64 p.id os.members_.pid) = none ∨
      (os.core_.make p).le32 os.core_ (add64 p.id os.members_.pid) = some 0 := by
  cases hr : (os.core_.make p).le32 os.core_ (add64 p.id os.members_.pid) with
  | none => simp [proc_id, hr]
  | some v => simp [proc_id, hr]

/-- A non-zero `proc_id` is the value read in the pid field. -/
theorem proc_id_ne_zero (os : OsLinux) (p : proc_t) (pid : Nat) (hpid : pid ≠ 0)
    (h : os.proc_id p = pid) :
    (os.core_.make p).le32 os.core_ (add64 p.id os.members_.pid) = some pid := by
  cases hr : (os.core_.make p).le32 os.core_ (add64 p.id os.members_.pid) with
  | none =>
    simp only [proc_id, hr] at h
    exact absurd h.symm hpid
  | some v =>
    simp only [proc_id, hr, Nat.zero_or] at h
    rw [h]

end OsLinux

/-! ## The claims on unreadable fields and on the links -/

section Unreadable

open OsLinux Synthetic

/-- C11, as amended.  When the attached module reports a current process and
the process list is a well-formed circular list, `proc_list` returns true even
if the page-table root of some nodes cannot be read; the handles it passes to
the callback are those of the other nodes, in list order, up to the node at
which the callback asks to stop (all of them when it never does); and no
handle is that of a node whose root is unreadable. -/
theorem proc_list_skips_unreadable {σ : Type} (os : OsLinux) (proc : proc_t)
    (links : List Nat) (f : σ → proc_t → walk_e × σ) (s : σ) (fuel : Nat)
    (hcur : os.core_.os.proc_current = some proc)
    (hwf : os.well_formed proc links)
    (hfuel : links.length < fuel) :
    (os.proc_list fuel (recording f) (s, [])).1 = Exit.returned true ∧
    (os.proc_list fuel (recording f) (s, [])).2.2
      = (links.filterMap (os.node_at (os.core_.make proc))).take
          ((first_stop f (links.filterMap (os.node_at (os.core_.make proc))) s).getD
            (links.filterMap (os.node_at (os.core_.make proc))).length) ∧
    (first_stop f (links.filterMap (os.node_at (os.core_.make proc))) s = none →
      (os.proc_list fuel (recording f) (s, [])).2.2
        = links.filterMap (os.node_at (os.core_.make proc))) ∧
    (∀ l ∈ links, os.node_at (os.core_.make proc) l = none →
      ∀ p ∈ (os.proc_list fuel (recording f) (s, [])).2.2,
        p.id ≠ sub64 l os.members_.tasks) := by
  have hv : os.visited fuel = links.filterMap (os.node_at (os.core_.make proc)) := by
    unfold visited
    rw [proc_list_chain os proc links fuel hcur hwf hfuel]
  have hcalls : (os.proc_list fuel (recording f) (s, [])).2.2
      = (links.filterMap (os.node_at (os.core_.make proc))).take
          ((first_stop f (links.filterMap (os.node_at (os.core_.make proc))) s).getD
            (links.filterMap (os.node_at (os.core_.make proc))).length) := by
    rw [proc_list_recording, hv]
  refine ⟨?_, hcalls, ?_, ?_⟩
  · rw [proc_list_recording, proc_list_chain os proc links fuel hcur hwf hfuel]
    simp
  · intro hnone
    rw [hcalls, hnone]
    simp
  · intro l _ hn p hp
    rw [hcalls] at hp
    exact unreadable_not_built os _ links l hn p (List.mem_of_mem_take hp)

/-- C11, witness: of two tasks the first has an unreadable root; the counting
callback is given the second one only. -/
theorem proc_list_skips_unreadable_witness :
    (mixed_tasks.proc_list 3 (recording count_on) (0, [])).1 = Exit.returned true ∧
    (mixed_tasks.proc_list 3 (recording count_on) (0, [])).2.2 = [task_b] ∧
    mixed_tasks.node_at (mixed_tasks.core_.make current) 0x2010 = none :=
  ⟨(proc_list_skips_unreadable mixed_tasks current [0x2010, 0x3010] count_on 0 3 rfl
      (by simp only [well_formed, is_chain]; decide) (by decide)).1,
   by decide, by decide⟩

/-- C11, counterexample.  The process list is a well-formed circular list of
two nodes, the root of the first unreadable and that of the second readable,
but the attached module reports no current process: `proc_list` returns false
and has called the callback on no node. -/
theorem proc_list_fails_without_current :
    mixed_no_current.well_formed current [0x2010, 0x3010] ∧
    mixed_no_current.node_at (mixed_no_current.core_.make current) 0x2010 = none ∧
    mixed_no_current.node_at (mixed_no_current.core_.make current) 0x3010 = some task_b ∧
    mixed_no_current.proc_list 3 note [] = (Exit.returned false, []) := by
  refine ⟨?_, by decide, by decide, by decide⟩
  simp only [well_formed, is_chain]; decide

/-- C12, on the code.  When the attached module reports a current process but
the next-pointer at the sentinel cannot be read, `proc_list` enters its loop
(an absent link differs from `head`) and dereferences the absent link: it
faults, without having called the callback, instead of returning false. -/
theorem proc_list_unreadable_root {σ : Type} (os : OsLinux) (proc : proc_t) (fuel : Nat)
    (f : σ → proc_t → walk_e × σ) (s : σ)
    (hcur : os.core_.os.proc_current = some proc)
    (hroot : (os.core_.make proc).read os.core_
      (add64 os.init_task_addr_ os.members_.tasks) = none) :
    os.proc_list (fuel + 1) (recording f) (s, [])
      = (Exit.fault Fault.absent_deref, (s, [])) :=
  proc_list_absent_root os proc fuel (recording f) (s, []) hcur hroot

/-- C12, witness: the guest whose sentinel is not mapped. -/
theorem proc_list_unreadable_root_witness :
    root_unreadable.proc_list 1 (recording count_on) (0, [])
      = (Exit.fault Fault.absent_deref, (0, [])) :=
  proc_list_unreadable_root root_unreadable current 0 count_on 0 rfl (by decide)

/-- C17.  Without a current process `proc_list` passes no handle to the
callback.  With one, there is a list of links, none of them the sentinel, that
starts with the link read at the sentinel and continues each time with the
value read at the link before, such that the handles `proc_list` passes to the
callback are, in order, handles built from these links: the address of each is
its link minus the offset `tasks` (on 64 bits) and its root is the value read
at that address plus the offset `pgd`. -/
theorem proc_list_handles_from_links {σ : Type} (os : OsLinux) (fuel : Nat)
    (f : σ → proc_t → walk_e × σ) (s : σ) :
    (os.core_.os.proc_current = none → (os.proc_list fuel (recording f) (s, [])).2.2 = []) ∧
    (∀ proc, os.core_.os.proc_current = some proc →
      ∃ links : List Nat,
        (∀ i, i < links.length →
          links[i]? = os.link_from (os.core_.make proc)
            ((os.core_.make proc).read os.core_
              (add64 os.init_task_addr_ os.members_.tasks)) i) ∧
        (∀ l ∈ links, l ≠ add64 os.init_task_addr_ os.members_.tasks) ∧
        (os.proc_list fuel (recording f) (s, [])).2.2
          <+: links.filterMap (os.node_at (os.core_.make proc)) ∧
        (∀ p ∈ (os.proc_list fuel (recording f) (s, [])).2.2, ∃ l ∈ links,
          p.id = sub64 l os.members_.tasks ∧
          (os.core_.make proc).read os.core_
              (add64 (sub64 l os.members_.tasks) os.members_.pgd)
            = some p.dtb.val)) := by
  constructor
  · intro hcur
    rw [proc_list_no_current os fuel _ _ hcur]
  · intro proc hcur
    have hcalls : (os.proc_list fuel (recording f) (s, [])).2.2
        <+: os.visited fuel := by
      rw [proc_list_recording]
      exact List.take_prefix _ _
    rw [visited_followed os proc fuel hcur] at hcalls
    refine ⟨_, followed_path os _ _ fuel _, followed_ne_head os _ _ fuel _, hcalls, ?_⟩
    intro p hp
    have hmem := hcalls.subset hp
    rw [List.mem_filterMap] at hmem
    obtain ⟨l, hl, hnode⟩ := hmem
    exact ⟨l, hl, (node_at_spec os _ l p).mp hnode⟩

/-- C17, an instance: among the two tasks, the handles passed are those of both
tasks, and they are built from links followed from the sentinel. -/
theorem proc_list_handles_from_links_witness :
    (two_tasks.proc_list 3 (recording count_on) (0, [])).2.2 = [task_a, task_b] ∧
    ∃ links : List Nat,
      (∀ i, i < links.length →
        links[i]? = two_tasks.link_from (two_tasks.core_.make current)
          ((two_tasks.core_.make current).read two_tasks.core_
            (add64 two_tasks.init_task_addr_ two_tasks.members_.tasks)) i) ∧
      (∀ l ∈ links, l ≠ add64 two_tasks.init_task_addr_ two_tasks.members_.tasks) ∧
      (two_tasks.proc_list 3 (recording count_on) (0, [])).2.2
        <+: links.filterMap (two_tasks.node_at (two_tasks.core_.make current)) ∧
      (∀ p ∈ (two_tasks.proc_list 3 (recording count_on) (0, [])).2.2, ∃ l ∈ links,
        p.id = sub64 l two_tasks.members_.tasks ∧
        (two_tasks.core_.make current).read two_tasks.core_
            (add64 (sub64 l two_tasks.members_.tasks) two_tasks.members_.pgd)
          = some p.dtb.val) :=
  ⟨by decide, (proc_list_handles_from_links two_tasks 3 count_on 0).2 current rfl⟩

/-- C18.  When the module the core consults is the Linux module itself,
`proc_current` is absent, so for every guest memory, fuel and callback
`proc_list` returns false without calling the callback, and both `proc_find`
overloads return absent for every name and every pid. -/
theorem linux_module_finds_nothing {σ : Type} (os : OsLinux) (fuel : Nat)
    (f : σ → proc_t → walk_e × σ) (s : σ) (name : List Byte) (pid : Nat)
    (hself : os.core_.os = os.as_view) :
    os.core_.os.proc_current = none ∧
    os.proc_list fuel (recording f) (s, []) = (Exit.returned false, (s, [])) ∧
    os.proc_find_name fuel name = Exit.returned none ∧
    os.proc_find_pid fuel pid = Exit.returned none := by
  have hcur : os.core_.os.proc_current = none := by
    rw [hself]
    rfl
  refine ⟨hcur, proc_list_no_current os fuel _ _ hcur, ?_, ?_⟩
  · unfold proc_find_name
    rw [proc_list_no_current os fuel _ _ hcur]
  · unfold proc_find_pid
    rw [proc_list_no_current os fuel _ _ hcur]

/-- C18, witness: a guest with one task whose core consults the Linux module
itself. -/
theorem linux_module_finds_nothing_witness :
    one_no_current.core_.os.proc_current = none ∧
    one_no_current.proc_list 5 (recording count_on) (0, []) = (Exit.returned false, (0, [])) ∧
    one_no_current.proc_find_name 5 [0x41] = Exit.returned none ∧
    one_no_current.proc_find_pid 5 0 = Exit.returned none :=
  linux_module_finds_nothing one_no_current 5 count_on 0 [0x41] 0 rfl

/-- C19.  For every guest and fuel, `proc_find(0)` returns the handle `h`
exactly when `h` is the first visited node whose pid field either cannot be
read or reads as 0; and when `proc_find(pid)` returns a handle for a pid other
than 0, the pid field of that handle is readable and reads as `pid`. -/
theorem proc_find_pid_zero_ambiguous (os : OsLinux) (fuel : Nat) :
    (∀ h, os.proc_find_pid fuel 0 = Exit.returned (some h) ↔
      ∃ before after, os.visited fuel = before ++ h :: after ∧
        ((os.core_.make h).le32 os.core_ (add64 h.id os.members_.pid) = none ∨
         (os.core_.make h).le32 os.core_ (add64 h.id os.members_.pid) = some 0) ∧
        ∀ q ∈ before,
          ¬ ((os.core_.make q).le32 os.core_ (add64 q.id os.members_.pid) = none ∨
             (os.core_.make q).le32 os.core_ (add64 q.id os.members_.pid) = some 0)) ∧
    (∀ pid h, pid ≠ 0 → os.proc_find_pid fuel pid = Exit.returned (some h) →
      (os.core_.make h).le32 os.core_ (add64 h.id os.members_.pid) = some pid) := by
  constructor
  · intro h
    rw [proc_find_pid_iff]
    constructor
    · rintro ⟨before, after, hv, hh, hq⟩
      exact ⟨before, after, hv, (proc_id_eq_zero_iff os h).mp hh,
        fun q hmem hz => hq q hmem ((proc_id_eq_zero_iff os q).mpr hz)⟩
    · rintro ⟨before, after, hv, hh, hq⟩
      exact ⟨before, after, hv, (proc_id_eq_zero_iff os h).mpr hh,
        fun q hmem hz => hq q hmem ((proc_id_eq_zero_iff os q).mp hz)⟩
  · intro pid h hpid hfind
    obtain ⟨_, _, _, hh, _⟩ := (proc_find_pid_iff os fuel pid h).mp hfind
    exact proc_id_ne_zero os h pid hpid hh

/-- C19, an instance: the first task has pid 5 and the pid field of the second
is unreadable; the search for pid 0 returns the second task. -/
theorem proc_find_pid_zero_ambiguous_witness :
    (second_pid_unreadable.core_.make task_b).le32 second_pid_unreadable.core_
        (add64 task_b.id second_pid_unreadable.members_.pid) = none ∧
    second_pid_unreadable.proc_find_pid 3 0 = Exit.returned (some task_b) :=
  ⟨by decide,
   ((proc_find_pid_zero_ambiguous second_pid_unreadable 3).1 task_b).mpr
     ⟨[task_a], [], by decide, Or.inl (by decide), by decide⟩⟩

end Unreadable

/-! ## The claims on attaching, on readers and on forwarding -/

namespace OsLinux

/-- Where a run of leading non-NUL bytes ends short of the list, the next byte
is a NUL. -/
theorem takeWhile_stops (l : List Byte) :
    (l.takeWhile (fun c => decide (c ≠ 0))).length < l.length →
      l[(l.takeWhile (fun c => decide (c ≠ 0))).length]? = some 0 := by
  induction l with
  | nil => intro h; simp at h
  | cons x xs ih =>
    intro h
    by_cases hx : x = 0
    · simp [List.takeWhile_cons, hx]
    · have hd : decide (x ≠ 0) = true := by simpa using hx
      rw [List.takeWhile_cons, hd] at h ⊢
      simp only [if_true, List.length_cons, Nat.add_lt_add_iff_right] at h
      simp only [if_true, List.length_cons, List.getElem?_cons_succ]
      exact ih h

/-- No byte of a run of leading non-NUL bytes is a NUL. -/
theorem takeWhile_no_nul (l : List Byte) :
    ∀ c ∈ l.takeWhile (fun c => decide (c ≠ 0)), c ≠ 0 := by
  intro c hc
  have := List.mem_takeWhile_imp hc
  simpa using this

end OsLinux

section Attach

open OsLinux Synthetic

variable {τ : Callbacks} {σ : Type}

/-- C13, as amended.  The method `setup` looks at no kernel version: for every
module and every guest it installs the table `linux_4_15_0_39_offsets` and the
fixed address of `init_task` and returns true, and `os::make_linux` returns
the module so set up, never null. -/
theorem setup_never_fails (self : OsLinux) (core : Core) (junk : os_offsets × Nat) :
    self.setup.1 = true ∧
    self.setup.2 = { core_ := self.core_, members_ := linux_4_15_0_39_offsets,
                     init_task_addr_ := 0xffffffff9e612480 } ∧
    os.make_linux core junk
      = some { core_ := core, members_ := linux_4_15_0_39_offsets,
               init_task_addr_ := 0xffffffff9e612480 } :=
  ⟨rfl, rfl, rfl⟩

/-- C13, counterexample.  On a guest in which nothing is mapped, which is no
kernel build of any offset table, `setup` returns true and `os::make_linux`
returns a module holding the offsets of build 4.15.0-39. -/
theorem setup_accepts_blank_guest :
    (OsLinux.setup (OsLinux.ctor blank (offsets, 0))).1 = true ∧
    (os.make_linux blank (offsets, 0)).isSome = true ∧
    (os.make_linux blank (offsets, 0)).map OsLinux.members_ = some linux_4_15_0_39_offsets ∧
    blank.byte { udtb_ := ⟨0⟩, kdtb_ := ⟨0⟩ } 0xffffffff9e612480 = none :=
  ⟨rfl, rfl, rfl, rfl⟩

/-- C15.  For every reader and every process handle `OsLinux::reader_setup`
returns true and leaves the reader with both its user root and its kernel root
equal to the dtb of the process; it returns nothing else, the module is not
written. -/
theorem linux_reader_setup (os : OsLinux) (reader : Reader) (proc : proc_t) :
    (os.reader_setup reader proc).1 = true ∧
    (os.reader_setup reader proc).2.udtb_ = proc.dtb ∧
    (os.reader_setup reader proc).2.kdtb_ = proc.dtb ∧
    os.reader_setup reader proc = (true, { udtb_ := proc.dtb, kdtb_ := proc.dtb }) :=
  ⟨rfl, rfl, rfl, rfl⟩

/-- C14.  With a module attached, every dispatcher function returns what the
method of the same name returns on the module state with the same arguments,
and leaves the core with the same module in the state after that one call. -/
theorem dispatcher_forwards (core : os.CorePrivate τ σ) (m : os.Module τ σ)
    (ptr index : Nat) (arg : arg_t) (reader : Reader) (proc : Option proc_t)
    (bpid : os.bpid_t) (on_proc : τ.on_proc_event_fn) (on_thread : τ.on_thread_event_fn)
    (on_mod : τ.on_mod_event_fn) (on_drv : τ.on_drv_event_fn)
    (hm : core.os_ = some m) :
    os.is_kernel_address core ptr
      = Except.ok ((m.vtable.is_kernel_address m.self ptr).1,
          { os_ := some { vtable := m.vtable,
                          self := (m.vtable.is_kernel_address m.self ptr).2 } }) ∧
    os.can_inject_fault core ptr
      = Except.ok ((m.vtable.can_inject_fault m.self ptr).1,
          { os_ := some { vtable := m.vtable,
                          self := (m.vtable.can_inject_fault m.self ptr).2 } }) ∧
    os.reader_setup core reader proc
      = Except.ok ((m.vtable.reader_setup m.self reader proc).1,
          { os_ := some { vtable := m.vtable,
                          self := (m.vtable.reader_setup m.self reader proc).2 } }) ∧
    os.listen_proc_create core on_proc
      = Except.ok ((m.vtable.listen_proc_create m.self on_proc).1,
          { os_ := some { vtable := m.vtable,
                          self := (m.vtable.listen_proc_create m.self on_proc).2 } }) ∧
    os.listen_proc_delete core on_proc
      = Except.ok ((m.vtable.listen_proc_delete m.self on_proc).1,
          { os_ := some { vtable := m.vtable,
                          self := (m.vtable.listen_proc_delete m.self on_proc).2 } }) ∧
    os.listen_thread_create core on_thread
      = Except.ok ((m.vtable.listen_thread_create m.self on_thread).1,
          { os_ := some { vtable := m.vtable,
                          self := (m.vtable.listen_thread_create m.self on_thread).2 } }) ∧
    os.listen_thread_delete core on_thread
      = Except.ok ((m.vtable.listen_thread_delete m.self on_thread).1,
          { os_ := some { vtable := m.vtable,
                          self := (m.vtable.listen_thread_delete m.self on_thread).2 } }) ∧
    os.listen_mod_create core on_mod
      = Except.ok ((m.vtable.listen_mod_create m.self on_mod).1,
          { os_ := some { vtable := m.vtable,
                          self := (m.vtable.listen_mod_create m.self on_mod).2 } }) ∧
    os.listen_drv_create core on_drv
      = Except.ok ((m.vtable.listen_drv_create m.self on_drv).1,
          { os_ := some { vtable := m.vtable,
                          self := (m.vtable.listen_drv_create m.self on_drv).2 } }) ∧
    os.unlisten core bpid
      = Except.ok ((m.vtable.unlisten m.self bpid).1,
          { os_ := some { vtable := m.vtable, self := (m.vtable.unlisten m.self bpid).2 } }) ∧
    os.read_stack core index
      = Except.ok ((m.vtable.read_stack m.self index).1,
          { os_ := some { vtable := m.vtable, self := (m.vtable.read_stack m.self index).2 } }) ∧
    os.read_arg core index
      = Except.ok ((m.vtable.read_arg m.self index).1,
          { os_ := some { vtable := m.vtable, self := (m.vtable.read_arg m.self index).2 } }) ∧
    os.write_arg core index arg
      = Except.ok ((m.vtable.write_arg m.self index arg).1,
          { os_ := some { vtable := m.vtable,
                          self := (m.vtable.write_arg m.self index arg).2 } }) := by
  obtain ⟨os_⟩ := core
  simp only at hm
  subst hm
  refine ⟨rfl, rfl, rfl, rfl, rfl, rfl, rfl, rfl, rfl, rfl, rfl, rfl, rfl⟩

/-- C14, witness: over the counting module after 3 calls, each function
returns the result of the method and leaves the module after 4 calls. -/
theorem dispatcher_forwards_witness :
    os.is_kernel_address (attached 3) 5 = Except.ok (false, attached 4) ∧
    os.can_inject_fault (attached 3) 5 = Except.ok (true, attached 4) ∧
    os.reader_setup (attached 3) { udtb_ := ⟨1⟩, kdtb_ := ⟨2⟩ } (some task_b)
      = Except.ok ((true, { udtb_ := ⟨0x7000⟩, kdtb_ := ⟨2⟩ }), attached 4) ∧
    os.listen_proc_create (attached 3) () = Except.ok (some 13, attached 4) ∧
    os.listen_proc_delete (attached 3) () = Except.ok (some 23, attached 4) ∧
    os.listen_thread_create (attached 3) () = Except.ok (some 33, attached 4) ∧
    os.listen_thread_delete (attached 3) () = Except.ok (some 43, attached 4) ∧
    os.listen_mod_create (attached 3) () = Except.ok (some 53, attached 4) ∧
    os.listen_drv_create (attached 3) () = Except.ok (some 63, attached 4) ∧
    os.unlisten (attached 3) 2 = Except.ok (1, attached 4) ∧
    os.read_stack (attached 3) 7 = Except.ok (some { val := 10 }, attached 4) ∧
    os.read_arg (attached 3) 7 = Except.ok (some { val := 17 }, attached 4) ∧
    os.write_arg (attached 3) 7 { val := 3 } = Except.ok (true, attached 4) :=
  dispatcher_forwards (attached 3) { vtable := counting, self := 3 } 5 7 { val := 3 }
    { udtb_ := ⟨1⟩, kdtb_ := ⟨2⟩ } (some task_b) 2 () () () () rfl

end Attach

/-! ## The claim on the content of a name -/

section Names

open OsLinux Synthetic

/-- C16.  The method `proc_name` returns absent exactly when the read of the 15
bytes at `proc.id + name` fails, that is when one of these bytes is
unreadable.  When the read succeeds with the bytes `buffer`, the result is the
run of bytes of the first 14 that comes before their first NUL: it is a prefix
of the first 14 bytes, it holds no NUL, if it is shorter than 14 the byte after
it is a NUL, and if none of the first 14 bytes is a NUL it is all of them. -/
theorem proc_name_truncates (os : OsLinux) (proc : proc_t) :
    (os.proc_name proc = none ↔
      (os.core_.make proc).read_buf os.core_ (add64 proc.id os.members_.name) 15 = none) ∧
    ((os.core_.make proc).read_buf os.core_ (add64 proc.id os.members_.name) 15 = none ↔
      ∃ i, i < 15 ∧
        os.core_.byte (os.core_.make proc) (add64 (add64 proc.id os.members_.name) i) = none) ∧
    (∀ buffer,
      (os.core_.make proc).read_buf os.core_ (add64 proc.id os.members_.name) 15 = some buffer →
      ∃ name, os.proc_name proc = some name ∧
        name = (buffer.take 14).takeWhile (fun c => decide (c ≠ 0)) ∧
        name <+: buffer.take 14 ∧
        (∀ c ∈ name, c ≠ 0) ∧
        (name.length < 14 → buffer[name.length]? = some 0) ∧
        ((∀ c ∈ buffer.take 14, c ≠ 0) → name = buffer.take 14)) := by
  refine ⟨?_, ?_, ?_⟩
  · cases hread : (os.core_.make proc).read_buf os.core_
        (add64 proc.id os.members_.name) 15 with
    | none =>
      unfold proc_name
      simp [hread]
    | some buffer =>
      rw [proc_name_eq os proc buffer hread]
      simp
  · constructor
    · exact Reader.read_buf_none os.core_ _ 15 _ (add64_lt _ _)
    · rintro ⟨i, hi, hbyte⟩
      cases hread : (os.core_.make proc).read_buf os.core_
          (add64 proc.id os.members_.name) 15 with
      | none => rfl
      | some buffer =>
        obtain ⟨hlen, hbytes⟩ :=
          Reader.read_buf_spec os.core_ _ 15 _ buffer (add64_lt _ _) hread
        have := hbytes i hi
        rw [hbyte] at this
        have hlt : i < buffer.length := by omega
        simp [List.getElem?_eq_getElem hlt] at this
  · intro buffer hread
    obtain ⟨hlen, _⟩ := Reader.read_buf_spec os.core_ _ 15 _ buffer (add64_lt _ _) hread
    refine ⟨_, proc_name_eq os proc buffer hread, rfl, List.takeWhile_prefix _,
      takeWhile_no_nul _, ?_, ?_⟩
    · intro hshort
      have hstop := takeWhile_stops (buffer.take 14)
        (by rw [List.length_take]; omega)
      rw [List.getElem?_take_of_lt hshort] at hstop
      exact hstop
    · intro hall
      rw [List.takeWhile_eq_self_iff]
      intro c hc
      simpa using hall c hc

/-- C16, instances: a name field holding `41 42 00 43 44 ...` yields the two
bytes `41 42`; a task whose name field is not mapped has no name. -/
theorem proc_name_truncates_witness :
    nul_name.proc_name task_a = some [0x41, 0x42] ∧
    nul_name.proc_name task_b = none ∧
    (nul_name.core_.make task_b).read_buf nul_name.core_
      (add64 task_b.id nul_name.members_.name) 15 = none :=
  ⟨by decide, (proc_name_truncates nul_name task_b).1.mpr (by decide), by decide⟩

end Names
